import Mathlib

/-!
Shallow embedding of the `sentry-tracing` crate's core
(`src/converters.rs` and `src/layer.rs`), together with proofs about the
field-extraction protocol, the event/breadcrumb converters, the dispatch
fan-out, and the span aggregation engine.

Machine integers and UUIDs are modelled as `Nat` (UUID generation as a
counter: `Uuid::new_v4` draws are pairwise distinct, which is the only
property the code relies on).  `Instant`/`SystemTime` are modelled as
nanosecond counts (`Nat`).  The `strip-ansi-escapes` code paths are
behind a `features = "strip-ansi-escapes"` cfg (note: not `feature`),
hence never compiled; they are omitted.
-/

/-- JSON-like value (`sentry_core::protocol::Value`), restricted to the
variants the visitor in `converters.rs` actually constructs. -/
inductive JsonValue : Type where
  | num (n : Int)
  | bool (b : Bool)
  | str (s : String)
deriving DecidableEq, Repr

/-- `sentry_core::protocol::Exception`, restricted to the fields the crate
sets.  The stack trace is opaque, modelled as a `Nat` handle. -/
structure SException : Type where
  ty : String := ""
  value : Option String := none
  stacktrace : Option Nat := none
  module : Option String := none
deriving DecidableEq, Repr

/-- Insert into an assoc-list modelling `BTreeMap<String, Value>`:
replace the value under an existing key, otherwise add the entry
(`BTreeMap::insert` semantics; last write per name wins). -/
def insertKV (m : List (String × JsonValue)) (k : String) (v : JsonValue) :
    List (String × JsonValue) :=
  match m with
  | [] => [(k, v)]
  | (k', v') :: rest => if k' = k then (k, v) :: rest else (k', v') :: insertKV rest k v

/-- Lookup in the assoc-list map. -/
def lookupKV (m : List (String × JsonValue)) (k : String) : Option JsonValue :=
  match m with
  | [] => none
  | (k', v') :: rest => if k' = k then some v' else lookupKV rest k

/-- `FieldVisitorResult` from `converters.rs`. -/
structure FieldVisitorResult : Type where
  event_type : Option String := none
  json_values : List (String × JsonValue) := []
  expections : List SException := []
deriving DecidableEq, Repr

/-- `FieldVisitorConfig` from `converters.rs` (the `strip_ansi_escapes`
flag is cfg'd out, see the header comment). -/
structure FieldVisitorConfig : Type where
  event_type_field : Option String := none
deriving DecidableEq, Repr

/-- A dynamically-typed attribute value handed to the visitor, one
constructor per `tracing::field::Visit` method the crate implements.
`error` carries the exception list `event_from_error(value).exception`
computed by the external `sentry_core::event_from_error`. -/
inductive FieldValue : Type where
  | i64 (v : Int)
  | u64 (v : Nat)
  | bool (v : Bool)
  | str (v : String)
  | error (exns : List SException)
  | debug (formatted : String)
deriving DecidableEq, Repr

/-- Display form of a value, standing in for Rust's `Display`
formatting used by `try_record_event_type`. -/
def FieldValue.display : FieldValue → String
  | .i64 v => toString v
  | .u64 v => toString v
  | .bool v => toString v
  | .str v => v
  | .error _ => ""
  | .debug s => s

/-- `FieldVisitor::try_record_event_type`: if the config names an
`event_type_field` equal to this field's name, store the display form as
`event_type` and report `true`; otherwise report `false`. -/
def tryRecordEventType (cfg : FieldVisitorConfig) (r : FieldVisitorResult)
    (fieldName : String) (display : String) : Bool × FieldVisitorResult :=
  match cfg.event_type_field with
  | some etf =>
    if fieldName = etf then (true, { r with event_type := some display }) else (false, r)
  | none => (false, r)

/-- `FieldVisitor::record_json_value`. -/
def recordJsonValue (r : FieldVisitorResult) (fieldName : String) (v : JsonValue) :
    FieldVisitorResult :=
  { r with json_values := insertKV r.json_values fieldName v }

/-- One visitor callback (`impl Visit for FieldVisitor`), dispatching on
the value's kind exactly as the per-type `record_*` methods do:
`record_i64`/`record_u64`/`record_bool`/`record_str`/`record_debug`
first try `try_record_event_type` and fall back to `record_json_value`;
`record_error` appends the decomposed exceptions and ignores the field
name entirely. -/
def visitField (cfg : FieldVisitorConfig) (r : FieldVisitorResult)
    (fieldName : String) (v : FieldValue) : FieldVisitorResult :=
  match v with
  | .i64 n =>
    let p := tryRecordEventType cfg r fieldName (toString n)
    if p.1 then p.2 else recordJsonValue p.2 fieldName (.num n)
  | .u64 n =>
    let p := tryRecordEventType cfg r fieldName (toString n)
    if p.1 then p.2 else recordJsonValue p.2 fieldName (.num (Int.ofNat n))
  | .bool b =>
    let p := tryRecordEventType cfg r fieldName (toString b)
    if p.1 then p.2 else recordJsonValue p.2 fieldName (.bool b)
  | .str s =>
    let p := tryRecordEventType cfg r fieldName s
    if p.1 then p.2 else recordJsonValue p.2 fieldName (.str s)
  | .error exns => { r with expections := r.expections ++ exns }
  | .debug s =>
    let p := tryRecordEventType cfg r fieldName s
    if p.1 then p.2 else recordJsonValue p.2 fieldName (.str s)

/-- `attrs.record(&mut visitor)` / `event.record(&mut visitor)`: visit
every attribute exactly once, in order. -/
def runVisitor (cfg : FieldVisitorConfig) (fields : List (String × FieldValue))
    (r : FieldVisitorResult) : FieldVisitorResult :=
  fields.foldl (fun acc nv => visitField cfg acc nv.1 nv.2) r

/-- Source-side `tracing::Level`. -/
inductive TracingLevel : Type where
  | error | warn | info | debug | trace
deriving DecidableEq, Repr

/-- Backend-side `sentry_core::Level`. -/
inductive SentryLevel : Type where
  | error | warning | info | debug
deriving DecidableEq, Repr

/-- `convert_tracing_level` from `converters.rs`. -/
def convert_tracing_level : TracingLevel → SentryLevel
  | .error => .error
  | .warn => .warning
  | .info => .info
  | .debug => .debug
  | .trace => .debug

/-- The static metadata of a tracing event (`tracing::Metadata`). -/
structure EventMetadata : Type where
  level : TracingLevel
  target : String
  name : String
  module_path : Option String := none
deriving DecidableEq, Repr

/-- A tracing event: metadata plus its recorded attributes. -/
structure TracingEvent : Type where
  metadata : EventMetadata
  fields : List (String × FieldValue)
deriving DecidableEq, Repr

/-- `sentry_core::Breadcrumb`, restricted to the fields
`breadcrumb_from_event` sets. -/
structure Breadcrumb : Type where
  ty : String
  level : SentryLevel
  category : Option String
  message : Option String
  data : List (String × JsonValue)
deriving DecidableEq, Repr

/-- `breadcrumb_from_event` from `converters.rs`. -/
def breadcrumb_from_event (event : TracingEvent) (cfg : FieldVisitorConfig) :
    Breadcrumb :=
  let r := runVisitor cfg event.fields {}
  { ty := "log"
    level := convert_tracing_level event.metadata.level
    category := some event.metadata.target
    message := r.event_type
    data := r.json_values }

/-- Trace context attached to an issue event
(`sentry_core::protocol::TraceContext`, the two fields the crate sets). -/
structure TraceContextData : Type where
  span_id : Nat
  trace_id : Nat
deriving DecidableEq, Repr

/-- Outcome of the parent-span lookup
`event.parent().and_then(|id| ctx.span(id)).or_else(|| ctx.lookup_current())`
performed by `convert_tracing_event`: `none` when no parent span was
found; otherwise the parent's `Trace` extension data (if any) together
with `parent.parents().last().map(|root| root.name())`, the name of the
outermost ancestor span. -/
structure ParentSpanInfo : Type where
  trace : Option TraceContextData
  rootName : Option String
deriving DecidableEq, Repr

/-- `sentry_core::protocol::Event`, restricted to the fields
`convert_tracing_event` sets. -/
structure SentryEvent : Type where
  logger : Option String := none
  level : SentryLevel := .info
  message : Option String := none
  exception : List SException := []
  extra : List (String × JsonValue) := []
  contexts : List (String × TraceContextData) := []
  transaction : Option String := none
deriving DecidableEq, Repr

/-- `convert_tracing_event` from `converters.rs`.  `parentSpan` stands
for the context lookup of the event's parent span (see
`ParentSpanInfo`); `currentStack` stands for the external
`sentry_backtrace::current_stacktrace()`. -/
def convert_tracing_event (event : TracingEvent) (parentSpan : Option ParentSpanInfo)
    (attach_stacktraces : Bool) (currentStack : Option Nat)
    (cfg : FieldVisitorConfig) : SentryEvent :=
  let r := runVisitor cfg event.fields {}
  let exception : List SException :=
    if ¬r.expections.isEmpty then
      r.expections
    else
      [{ ty := event.metadata.name
         value := r.event_type
         stacktrace := if attach_stacktraces then currentStack else none
         module := event.metadata.module_path }]
  let result : SentryEvent :=
    { logger := some "sentry-tracing"
      level := convert_tracing_level event.metadata.level
      message := r.event_type
      exception := exception
      extra := r.json_values }
  match parentSpan with
  | none => result
  | some p =>
    match p.trace with
    | none => result
    | some tc =>
      { result with
        contexts := [("trace", tc)]
        transaction := p.rootName }

/-- `tracing::subscriber::Interest`, the three-valued interest level. -/
inductive Interest : Type where
  | always | sometimes | never
deriving DecidableEq, Repr

/-- `Interest::is_always`. -/
def Interest.is_always : Interest → Bool
  | .always => true
  | _ => false

/-- `Interest::is_never`. -/
def Interest.is_never : Interest → Bool
  | .never => true
  | _ => false

/-- `SentryLayer::register_callsite` from `layer.rs`, as a function of
the three sub-layers' own `register_callsite` results. -/
def sentryLayer_register_callsite (span event breadcrumb : Interest) : Interest :=
  if span.is_always || event.is_always || breadcrumb.is_always then
    .always
  else if span.is_never && event.is_never && breadcrumb.is_never then
    .never
  else
    .sometimes

/-- Lookup in a `Nat`-keyed assoc list (first matching entry), modelling
the per-span side tables (extensions, registry data). -/
def lookupN {α : Type} (m : List (Nat × α)) (k : Nat) : Option α :=
  match m with
  | [] => none
  | (k', v) :: rest => if k' = k then some v else lookupN rest k

/-- Remove every entry under a key. -/
def eraseN {α : Type} (m : List (Nat × α)) (k : Nat) : List (Nat × α) :=
  match m with
  | [] => []
  | (k', v) :: rest => if k' = k then eraseN rest k else (k', v) :: eraseN rest k

/-- Insert (or overwrite) the entry under a key. -/
def insertN {α : Type} (m : List (Nat × α)) (k : Nat) (v : α) : List (Nat × α) :=
  (k, v) :: eraseN m k

/-- `sentry_core::protocol::Span`, restricted to the fields
`SpanLayer::on_close` sets (the finished-span summary). -/
structure PSpan : Type where
  span_id : Nat
  trace_id : Nat
  parent_span_id : Option Nat := none
  op : Option String := none
  description : Option String := none
  start_timestamp : Nat := 0
  timestamp : Option Nat := none
  data : List (String × JsonValue) := []
  status : Option String := none
deriving DecidableEq, Repr

/-- The `Trace` extension data from `layer.rs`: per-span mutable state
attached to a span for its lifetime. -/
structure Trace : Type where
  span_id : Nat
  trace_id : Nat
  visitor : FieldVisitorResult := {}
  spans : List PSpan := []
  idle : Nat := 0
  busy : Nat := 0
  last : Nat
  first : Nat
  last_sys : Nat
deriving DecidableEq, Repr

/-- `sentry_core::protocol::Transaction`, restricted to the fields the
root branch of `SpanLayer::on_close` sets. -/
structure Transaction : Type where
  event_id : Nat
  name : Option String := none
  start_timestamp : Nat := 0
  timestamp : Option Nat := none
  spans : List PSpan := []
deriving DecidableEq, Repr

/-- State of the span machinery: the per-span `Trace` extensions (only
spans admitted by the span filter own one), the registry data the
subscriber keeps for every span (ancestor chain, nearest first, and
name), the transactions handed to the reporting sink in order, and the
UUID source (`Uuid::new_v4` modelled as a counter). -/
structure LayerState : Type where
  nodes : List (Nat × Trace) := []
  ancestors : List (Nat × List Nat) := []
  names : List (Nat × String) := []
  sent : List Transaction := []
  nextUuid : Nat := 0
deriving DecidableEq, Repr

/-- `Trace::new` from `layer.rs`: the `trace_id` comes from
`span.parent()` — the immediate registry parent only — when that parent
owns a `Trace` extension, and is a fresh UUID otherwise; the `span_id`
is always fresh.  Returns the new node and the advanced UUID counter
(in the fresh case the `trace_id` draw happens first). -/
def Trace.new (st : LayerState) (parent : Option Nat) (now wallNow : Nat) :
    Trace × Nat :=
  match parent.bind (fun p => (lookupN st.nodes p).map (fun t => t.trace_id)) with
  | some tid =>
    ({ span_id := st.nextUuid, trace_id := tid, last := now, first := wallNow,
       last_sys := wallNow }, st.nextUuid + 1)
  | none =>
    ({ span_id := st.nextUuid + 1, trace_id := st.nextUuid, last := now,
       first := wallNow, last_sys := wallNow }, st.nextUuid + 2)

/-- `SpanLayer::new_span`: if the span does not already own a `Trace`
extension, build one with `Trace::new`, record the creation attributes
into its visitor, and attach it. -/
def spanLayer_new_span (cfg : FieldVisitorConfig) (st : LayerState) (id : Nat)
    (parent : Option Nat) (attrs : List (String × FieldValue)) (now wallNow : Nat) :
    LayerState :=
  match lookupN st.nodes id with
  | some _ => st
  | none =>
    let p := Trace.new st parent now wallNow
    let trace := { p.1 with visitor := runVisitor cfg attrs {} }
    { st with nodes := insertN st.nodes id trace, nextUuid := p.2 }

/-- `SpanLayer::on_enter`: if the span owns a `Trace` extension, add the
monotonic time since `last` to `idle` and reset `last`; otherwise do
nothing. -/
def spanLayer_on_enter (st : LayerState) (id : Nat) (now : Nat) : LayerState :=
  match lookupN st.nodes id with
  | none => st
  | some t =>
    { st with nodes :=
        insertN st.nodes id { t with idle := t.idle + (now - t.last), last := now } }

/-- `SpanLayer::on_exit`: if the span owns a `Trace` extension, add the
monotonic time since `last` to `busy`, reset `last`, and record the wall
clock in `last_sys`; otherwise do nothing. -/
def spanLayer_on_exit (st : LayerState) (id : Nat) (now wallNow : Nat) : LayerState :=
  match lookupN st.nodes id with
  | none => st
  | some t =>
    { st with nodes :=
        insertN st.nodes id ({ t with busy := t.busy + (now - t.last), last := now,
                                      last_sys := wallNow }) }

/-- The summary `span_data` built by `SpanLayer::on_close` from the
closing span's `Trace` node: flush the in-progress idle interval to
`now`, merge `busy`/`idle` into the visitor's JSON map, and derive the
status from whether any exceptions were extracted. -/
def mkSpanData (trace : Trace) (name : String) (now : Nat) : PSpan :=
  let idle := trace.idle + (now - trace.last)
  { span_id := trace.span_id
    trace_id := trace.trace_id
    op := some name
    description := trace.visitor.event_type
    start_timestamp := trace.first
    timestamp := some trace.last_sys
    data := insertKV (insertKV trace.visitor.json_values "busy" (.num (Int.ofNat trace.busy)))
      "idle" (.num (Int.ofNat idle))
    status := some (if trace.visitor.expections.isEmpty then "ok" else "internal_error") }

/-- The `for parent in span.parents()` loop of `SpanLayer::on_close`:
walk the ancestor chain outward and, at the first ancestor owning a
`Trace` extension, extend its `spans` buffer with the closing span's
accumulated children followed by the closing span's own summary (with
`parent_span_id` set to that ancestor's `span_id`).  Returns `none`
when no ancestor owns a node. -/
def attachToAncestor (nodes : List (Nat × Trace)) (chain : List Nat)
    (spans : List PSpan) (spanData : PSpan) : Option (List (Nat × Trace)) :=
  match chain with
  | [] => none
  | p :: rest =>
    match lookupN nodes p with
    | some pt =>
      some (insertN nodes p
        { pt with spans :=
            pt.spans ++ spans ++ [{ spanData with parent_span_id := some pt.span_id }] })
    | none => attachToAncestor nodes rest spans spanData

/-- `SpanLayer::on_close`: a span without a `Trace` extension is ignored;
otherwise build the summary, detach the node, and either hand the
summary (plus accumulated children) to the nearest live ancestor or —
when no ancestor owns a node — submit a root `Transaction` built from
`trace_id`, the span's own fields and its accumulated `spans` to the
sink. -/
def spanLayer_on_close (st : LayerState) (id : Nat) (now : Nat) : LayerState :=
  match lookupN st.nodes id with
  | none => st
  | some trace =>
    let name := (lookupN st.names id).getD ""
    let spanData := mkSpanData trace name now
    let chain := (lookupN st.ancestors id).getD []
    let nodes := eraseN st.nodes id
    match attachToAncestor nodes chain trace.spans spanData with
    | some nodes' => { st with nodes := nodes' }
    | none =>
      { st with
        nodes := nodes
        sent := st.sent ++
          [{ event_id := trace.trace_id
             name := some name
             start_timestamp := trace.first
             timestamp := some trace.last_sys
             spans := trace.spans }] }

/-- A lifecycle callback delivered to the span layer.  `create` carries
the registry data of the new span (immediate parent, name, attributes)
and whether the span filter admits it (`tracked`); every op carries the
monotonic clock reading `now` at the moment of the callback, and the
ops that read the wall clock carry `wall`. -/
inductive Op : Type where
  | create (id : Nat) (parent : Option Nat) (tracked : Bool) (name : String)
      (attrs : List (String × FieldValue)) (now wall : Nat)
  | enter (id : Nat) (now : Nat)
  | exit (id : Nat) (now wall : Nat)
  | close (id : Nat) (now : Nat)
deriving DecidableEq, Repr

/-- Machine state together with ghost bookkeeping used only by the
proofs: creation order, close order, the set of tracked spans, the span
and trace UUIDs assigned to each tracked span, each tracked span's
creation instant, and the last monotonic reading. -/
structure GState : Type where
  st : LayerState := {}
  created : List Nat := []
  closedL : List Nat := []
  tracked : List Nat := []
  suuid : List (Nat × Nat) := []
  tuuid : List (Nat × Nat) := []
  ctime : List (Nat × Nat) := []
  clock : Nat := 0
deriving DecidableEq, Repr

/-- The registry ancestor chain of a span, nearest ancestor first
(`span.parents()` in `tracing-subscriber`). -/
def chainOf (G : GState) (t : Nat) : List Nat :=
  (lookupN G.st.ancestors t).getD []

/-- One machine step.  A `create` installs the registry data for every
span and invokes `SpanLayer::new_span` only when the span filter admits
the span; the other ops invoke the corresponding `SpanLayer` callback.
Ghost fields are updated alongside. -/
def gstep (cfg : FieldVisitorConfig) (G : GState) : Op → GState
  | .create id parent tracked _name attrs now wall =>
    let chain : List Nat :=
      match parent with
      | none => []
      | some p => p :: chainOf G p
    let st1 :=
      if tracked then spanLayer_new_span cfg G.st id parent attrs now wall else G.st
    { G with
      st :=
        { st1 with
          ancestors := insertN G.st.ancestors id chain
          names := insertN G.st.names id _name }
      created := G.created ++ [id]
      tracked := if tracked then G.tracked ++ [id] else G.tracked
      suuid :=
        match lookupN st1.nodes id with
        | some tr => insertN G.suuid id tr.span_id
        | none => G.suuid
      tuuid :=
        match lookupN st1.nodes id with
        | some tr => insertN G.tuuid id tr.trace_id
        | none => G.tuuid
      ctime := if tracked then insertN G.ctime id now else G.ctime
      clock := now }
  | .enter id now => { G with st := spanLayer_on_enter G.st id now, clock := now }
  | .exit id now wall => { G with st := spanLayer_on_exit G.st id now wall, clock := now }
  | .close id now =>
    { G with
      st := spanLayer_on_close G.st id now
      closedL := G.closedL ++ [id]
      clock := now }

/-- Run a sequence of ops. -/
def grun (cfg : FieldVisitorConfig) (G : GState) : List Op → GState
  | [] => G
  | op :: ops => grun cfg (gstep cfg G op) ops

/-- Host-guaranteed preconditions of one op, as a Boolean predicate:
span ids are created once, with an already-created still-open parent;
only created, still-open spans receive `enter`/`exit`/`close`; a span
closes only after every span having it as a registry ancestor has
closed (the subscriber keeps a span alive while references to it
remain); and the monotonic clock never decreases. -/
def validOp (G : GState) : Op → Bool
  | .create id parent _ _ _ now _ =>
    id ∉ G.created &&
    (match parent with
     | none => true
     | some p => p ∈ G.created && p ∉ G.closedL) &&
    G.clock ≤ now
  | .enter id now => id ∈ G.created && id ∉ G.closedL && G.clock ≤ now
  | .exit id now _ => id ∈ G.created && id ∉ G.closedL && G.clock ≤ now
  | .close id now =>
    id ∈ G.created && id ∉ G.closedL &&
    G.created.all (fun s => s ∈ G.closedL || id ∉ chainOf G s || s = id) &&
    G.clock ≤ now

/-- Validity of a whole op sequence from a given state. -/
def validRun (cfg : FieldVisitorConfig) (G : GState) : List Op → Bool
  | [] => true
  | op :: ops => validOp G op && validRun cfg (gstep cfg G op) ops

/-- Lookup after inserting the same key. -/
theorem lookupKV_insertKV_self (m : List (String × JsonValue)) (k : String) (v : JsonValue) :
    lookupKV (insertKV m k v) k = some v := by
  induction m with
  | nil => simp [insertKV, lookupKV]
  | cons hd tl ih =>
    by_cases h : hd.1 = k
    · simp [insertKV, lookupKV, h]
    · simp [insertKV, lookupKV, h, ih]

/-- Lookup after inserting a different key. -/
theorem lookupKV_insertKV_ne (m : List (String × JsonValue)) {n k : String} (v : JsonValue)
    (h : n ≠ k) : lookupKV (insertKV m n v) k = lookupKV m k := by
  induction m with
  | nil => simp [insertKV, lookupKV, h]
  | cons hd tl ih =>
    by_cases h' : hd.1 = n
    · simp [insertKV, lookupKV, h', h]
    · simp [insertKV, lookupKV, h', ih]

/-- Case split for `try_record_event_type`: either the configured
promote key matches the field name and only `event_type` is written, or
nothing happens. -/
theorem tryRecordEventType_cases (cfg : FieldVisitorConfig) (r : FieldVisitorResult)
    (n d : String) :
    (cfg.event_type_field = some n ∧
      tryRecordEventType cfg r n d = (true, { r with event_type := some d })) ∨
    (cfg.event_type_field ≠ some n ∧ tryRecordEventType cfg r n d = (false, r)) := by
  cases hc : cfg.event_type_field with
  | none => exact Or.inr ⟨by simp [hc], by simp [tryRecordEventType, hc]⟩
  | some etf =>
    by_cases he : n = etf
    · subst he
      exact Or.inl ⟨rfl, by simp [tryRecordEventType, hc]⟩
    · refine Or.inr ⟨?_, by simp [tryRecordEventType, hc, he]⟩
      exact fun hcc => he (Option.some_inj.mp hcc).symm

/-- The exceptions accumulated by one visit: an error-kind attribute
appends its decomposition, every other kind leaves them unchanged. -/
def FieldValue.errorExns : FieldValue → List SException
  | .error e => e
  | _ => []

/-- One visit appends exactly the attribute's error decomposition to
`expections`. -/
theorem visitField_expections (cfg : FieldVisitorConfig) (r : FieldVisitorResult)
    (n : String) (v : FieldValue) :
    (visitField cfg r n v).expections = r.expections ++ v.errorExns := by
  cases v with
  | error exns => rfl
  | i64 m =>
    rcases tryRecordEventType_cases cfg r n (toString m) with ⟨_, h⟩ | ⟨_, h⟩ <;>
      simp [visitField, h, recordJsonValue, FieldValue.errorExns]
  | u64 m =>
    rcases tryRecordEventType_cases cfg r n (toString m) with ⟨_, h⟩ | ⟨_, h⟩ <;>
      simp [visitField, h, recordJsonValue, FieldValue.errorExns]
  | bool b =>
    rcases tryRecordEventType_cases cfg r n (toString b) with ⟨_, h⟩ | ⟨_, h⟩ <;>
      simp [visitField, h, recordJsonValue, FieldValue.errorExns]
  | str s =>
    rcases tryRecordEventType_cases cfg r n s with ⟨_, h⟩ | ⟨_, h⟩ <;>
      simp [visitField, h, recordJsonValue, FieldValue.errorExns]
  | debug s =>
    rcases tryRecordEventType_cases cfg r n s with ⟨_, h⟩ | ⟨_, h⟩ <;>
      simp [visitField, h, recordJsonValue, FieldValue.errorExns]

/-- The exceptions accumulated by a full visitation are the
concatenation of the error decompositions of the visited attributes. -/
theorem runVisitor_expections (cfg : FieldVisitorConfig)
    (fields : List (String × FieldValue)) (r : FieldVisitorResult) :
    (runVisitor cfg fields r).expections =
      r.expections ++ (fields.map (fun nv => nv.2.errorExns)).flatten := by
  induction fields generalizing r with
  | nil => simp [runVisitor]
  | cons hd tl ih =>
    show (runVisitor cfg tl (visitField cfg r hd.1 hd.2)).expections = _
    rw [ih, visitField_expections]
    simp


/-- Error-kind test for an attribute value. -/
def FieldValue.isError : FieldValue → Bool
  | .error _ => true
  | _ => false

/-- C7: every visited attribute contributes to exactly one destination
of the Field Record — the promoted label (`event_type`), the structured
map (`json_values`), or the extracted error records (`expections`) —
never two; and an attribute named the configured promote key never
appears in the structured map. -/
theorem field_visitor_exclusivity :
    (∀ (cfg : FieldVisitorConfig) (r : FieldVisitorResult) (n : String) (v : FieldValue),
      ((visitField cfg r n v).json_values = r.json_values ∧
        (visitField cfg r n v).expections = r.expections) ∨
      ((visitField cfg r n v).event_type = r.event_type ∧
        (visitField cfg r n v).expections = r.expections) ∨
      ((visitField cfg r n v).event_type = r.event_type ∧
        (visitField cfg r n v).json_values = r.json_values)) ∧
    (∀ (cfg : FieldVisitorConfig) (k : String) (fields : List (String × FieldValue)),
      cfg.event_type_field = some k →
      lookupKV (runVisitor cfg fields {}).json_values k = none) := by
  have hvisit : ∀ (cfg : FieldVisitorConfig) (r : FieldVisitorResult) (n : String)
      (v : FieldValue),
      ((visitField cfg r n v).json_values = r.json_values ∧
        (visitField cfg r n v).expections = r.expections) ∨
      ((visitField cfg r n v).event_type = r.event_type ∧
        (visitField cfg r n v).expections = r.expections) ∨
      ((visitField cfg r n v).event_type = r.event_type ∧
        (visitField cfg r n v).json_values = r.json_values) := by
    intro cfg r n v
    cases v with
    | error exns => exact Or.inr (Or.inr ⟨rfl, rfl⟩)
    | i64 m =>
      rcases tryRecordEventType_cases cfg r n (toString m) with ⟨_, h⟩ | ⟨_, h⟩
      · exact Or.inl (by simp [visitField, h])
      · exact Or.inr (Or.inl (by simp [visitField, h, recordJsonValue]))
    | u64 m =>
      rcases tryRecordEventType_cases cfg r n (toString m) with ⟨_, h⟩ | ⟨_, h⟩
      · exact Or.inl (by simp [visitField, h])
      · exact Or.inr (Or.inl (by simp [visitField, h, recordJsonValue]))
    | bool b =>
      rcases tryRecordEventType_cases cfg r n (toString b) with ⟨_, h⟩ | ⟨_, h⟩
      · exact Or.inl (by simp [visitField, h])
      · exact Or.inr (Or.inl (by simp [visitField, h, recordJsonValue]))
    | str s =>
      rcases tryRecordEventType_cases cfg r n s with ⟨_, h⟩ | ⟨_, h⟩
      · exact Or.inl (by simp [visitField, h])
      · exact Or.inr (Or.inl (by simp [visitField, h, recordJsonValue]))
    | debug s =>
      rcases tryRecordEventType_cases cfg r n s with ⟨_, h⟩ | ⟨_, h⟩
      · exact Or.inl (by simp [visitField, h])
      · exact Or.inr (Or.inl (by simp [visitField, h, recordJsonValue]))
  refine ⟨hvisit, ?_⟩
  intro cfg k fields hk
  have step : ∀ (r : FieldVisitorResult) (n : String) (v : FieldValue),
      lookupKV r.json_values k = none →
      lookupKV (visitField cfg r n v).json_values k = none := by
    intro r n v hr
    have hins : ∀ (jv : JsonValue), cfg.event_type_field ≠ some n →
        lookupKV (insertKV r.json_values n jv) k = none := by
      intro jv hne
      have hnk : n ≠ k := by
        intro hEq
        exact hne (hEq ▸ hk)
      rw [lookupKV_insertKV_ne _ _ hnk]
      exact hr
    cases v with
    | error exns => exact hr
    | i64 m =>
      rcases tryRecordEventType_cases cfg r n (toString m) with ⟨_, h⟩ | ⟨hne, h⟩
      · simpa [visitField, h] using hr
      · simpa [visitField, h, recordJsonValue] using hins _ hne
    | u64 m =>
      rcases tryRecordEventType_cases cfg r n (toString m) with ⟨_, h⟩ | ⟨hne, h⟩
      · simpa [visitField, h] using hr
      · simpa [visitField, h, recordJsonValue] using hins _ hne
    | bool b =>
      rcases tryRecordEventType_cases cfg r n (toString b) with ⟨_, h⟩ | ⟨hne, h⟩
      · simpa [visitField, h] using hr
      · simpa [visitField, h, recordJsonValue] using hins _ hne
    | str s =>
      rcases tryRecordEventType_cases cfg r n s with ⟨_, h⟩ | ⟨hne, h⟩
      · simpa [visitField, h] using hr
      · simpa [visitField, h, recordJsonValue] using hins _ hne
    | debug s =>
      rcases tryRecordEventType_cases cfg r n s with ⟨_, h⟩ | ⟨hne, h⟩
      · simpa [visitField, h] using hr
      · simpa [visitField, h, recordJsonValue] using hins _ hne
  have main : ∀ (fs : List (String × FieldValue)) (r : FieldVisitorResult),
      lookupKV r.json_values k = none →
      lookupKV (runVisitor cfg fs r).json_values k = none := by
    intro fs
    induction fs with
    | nil => intro r hr; exact hr
    | cons hd tl ih =>
      intro r hr
      exact ih _ (step r hd.1 hd.2 hr)
  exact main fields {} rfl

/-- Witness for `field_visitor_exclusivity`: a concrete promoted
attribute never lands in the structured map. -/
theorem field_visitor_exclusivity_witness :
    (FieldVisitorConfig.mk (some "kind")).event_type_field = some "kind" ∧
    lookupKV (runVisitor (FieldVisitorConfig.mk (some "kind"))
      [("kind", .str "x"), ("a", .u64 1)] {}).json_values "kind" = none :=
  ⟨rfl, field_visitor_exclusivity.2 (FieldVisitorConfig.mk (some "kind")) "kind"
    [("kind", .str "x"), ("a", .u64 1)] rfl⟩

/-- C10: an error-kind attribute appends its decomposed exception
records and leaves both the promoted label and the structured map
unchanged, regardless of the attribute's name — in particular even when
the name equals the configured promote key, it is never promoted. -/
theorem record_error_leaves_label_and_structured :
    ∀ (cfg : FieldVisitorConfig) (r : FieldVisitorResult) (n : String)
      (exns : List SException),
      (visitField cfg r n (.error exns)).event_type = r.event_type ∧
      (visitField cfg r n (.error exns)).json_values = r.json_values ∧
      (visitField cfg r n (.error exns)).expections = r.expections ++ exns :=
  fun _ _ _ _ => ⟨rfl, rfl, rfl⟩

/-- C8: an `Entered`, `Exited` or `Closed` callback for a span id with
no attached `Trace` node leaves the whole layer state unchanged (hence
nothing is emitted to the sink) — the call is silently ignored. -/
theorem missing_span_node_ignored :
    ∀ (st : LayerState) (id now wall : Nat),
      lookupN st.nodes id = none →
      spanLayer_on_enter st id now = st ∧
      spanLayer_on_exit st id now wall = st ∧
      spanLayer_on_close st id now = st ∧
      (spanLayer_on_close st id now).sent = st.sent := by
  intro st id now wall h
  refine ⟨?_, ?_, ?_, ?_⟩ <;>
    simp [spanLayer_on_enter, spanLayer_on_exit, spanLayer_on_close, h]

/-- Witness for `missing_span_node_ignored` at the empty state. -/
theorem missing_span_node_ignored_witness :
    lookupN ({} : LayerState).nodes 0 = none ∧
    spanLayer_on_close ({} : LayerState) 0 5 = ({} : LayerState) :=
  ⟨rfl, (missing_span_node_ignored {} 0 5 7 rfl).2.2.1⟩

/-- C9: the fan-out's `register_callsite` result is `always` if any
sub-layer reports always, `never` exactly when all three report never,
and `sometimes` in every other case. -/
theorem register_callsite_interest :
    ∀ s e b : Interest,
      ((s.is_always || e.is_always || b.is_always) = true →
        sentryLayer_register_callsite s e b = .always) ∧
      (sentryLayer_register_callsite s e b = .never ↔
        (s = .never ∧ e = .never ∧ b = .never)) ∧
      ((s.is_always || e.is_always || b.is_always) = false →
        ¬(s = .never ∧ e = .never ∧ b = .never) →
        sentryLayer_register_callsite s e b = .sometimes) := by
  intro s e b
  cases s <;> cases e <;> cases b <;> exact ⟨by decide, by decide, by decide⟩

/-- Witness for `register_callsite_interest`. -/
theorem register_callsite_interest_witness :
    (Interest.is_always .always || Interest.is_always .never ||
      Interest.is_always .never) = true ∧
    sentryLayer_register_callsite .always .never .never = .always :=
  ⟨rfl, (register_callsite_interest .always .never .never).1 rfl⟩

/-- The concrete event refuting C5: declared category (target) `"app"`,
one string attribute named exactly `"log.target"` with value `"db"`. -/
def c5Event : TracingEvent :=
  { metadata := { level := .info, target := "app", name := "event test", module_path := none }
    fields := [("log.target", .str "db")] }

/-- C5 counterexample: the code never overrides the breadcrumb category
with the `"log.target"` attribute (the resulting category stays
`"app"`, not `"db"`, and the attribute lands in `data` like any other
string), and the message has no display-log fallback (it is `none` when
no label was promoted, not the joined log). -/
theorem breadcrumb_category_override_counterexample :
    (breadcrumb_from_event c5Event {}).category = some "app" ∧
    (breadcrumb_from_event c5Event {}).category ≠ some "db" ∧
    (breadcrumb_from_event c5Event {}).message = none ∧
    lookupKV (breadcrumb_from_event c5Event {}).data "log.target" = some (.str "db") := by
  refine ⟨rfl, by decide, rfl, rfl⟩

/-- C5 amended: breadcrumb conversion produces `{type: "log", severity:
mapped source level, category: the event's declared target (never
overridden), message: the promoted label (or nothing), data: the
structured map}`. -/
theorem breadcrumb_from_event_shape :
    ∀ (ev : TracingEvent) (cfg : FieldVisitorConfig),
      (breadcrumb_from_event ev cfg).ty = "log" ∧
      (breadcrumb_from_event ev cfg).level = convert_tracing_level ev.metadata.level ∧
      (breadcrumb_from_event ev cfg).category = some ev.metadata.target ∧
      (breadcrumb_from_event ev cfg).message = (runVisitor cfg ev.fields {}).event_type ∧
      (breadcrumb_from_event ev cfg).data = (runVisitor cfg ev.fields {}).json_values :=
  fun _ _ => ⟨rfl, rfl, rfl, rfl, rfl⟩

/-- The exception list of a converted issue event, independently of the
parent-span context handling. -/
theorem convert_tracing_event_exception_eq (ev : TracingEvent)
    (ps : Option ParentSpanInfo) (att : Bool) (stk : Option Nat)
    (cfg : FieldVisitorConfig) :
    (convert_tracing_event ev ps att stk cfg).exception =
      (if ¬(runVisitor cfg ev.fields {}).expections.isEmpty then
        (runVisitor cfg ev.fields {}).expections
      else
        [{ ty := ev.metadata.name
           value := (runVisitor cfg ev.fields {}).event_type
           stacktrace := if att then stk else none
           module := ev.metadata.module_path }]) := by
  rcases ps with _ | ⟨_ | tc, rn⟩ <;> rfl

/-- C6: issue-event conversion yields exactly the extracted error
records when at least one attribute was error-kind (with a non-empty
decomposition, which the external `event_from_error` guarantees), and
otherwise synthesizes a single exception whose type is the event's
declared name, whose message is the promoted label, and whose stack
trace is the captured one exactly when `attach_stacktraces` is set. -/
theorem convert_tracing_event_exceptions :
    ∀ (ev : TracingEvent) (ps : Option ParentSpanInfo) (att : Bool) (stk : Option Nat)
      (cfg : FieldVisitorConfig),
      ((∃ nv ∈ ev.fields, nv.2.errorExns ≠ []) →
        (convert_tracing_event ev ps att stk cfg).exception =
          (runVisitor cfg ev.fields {}).expections) ∧
      ((∀ nv ∈ ev.fields, nv.2.isError = false) →
        (convert_tracing_event ev ps att stk cfg).exception =
          [{ ty := ev.metadata.name
             value := (runVisitor cfg ev.fields {}).event_type
             stacktrace := if att then stk else none
             module := ev.metadata.module_path }]) := by
  intro ev ps att stk cfg
  constructor
  · rintro ⟨nv, hmem, hne⟩
    rw [convert_tracing_event_exception_eq]
    have hexp : (runVisitor cfg ev.fields {}).expections ≠ [] := by
      rw [runVisitor_expections]
      simp only [List.nil_append, ne_eq, List.flatten_eq_nil_iff]
      intro hall
      exact hne (hall _ (List.mem_map_of_mem _ hmem))
    simp [List.isEmpty_iff, hexp]
  · intro hnone
    rw [convert_tracing_event_exception_eq]
    have hexp : (runVisitor cfg ev.fields {}).expections = [] := by
      rw [runVisitor_expections]
      simp only [List.nil_append, List.flatten_eq_nil_iff]
      intro l hl
      rcases List.mem_map.mp hl with ⟨nv, hmem, hEq⟩
      have := hnone nv hmem
      cases hv : nv.2 <;> simp [hv, FieldValue.isError] at this ⊢ <;>
        simp [← hEq, hv, FieldValue.errorExns]
    simp [List.isEmpty_iff, hexp]

/-- A concrete event with one error-kind attribute, for the C6 witness. -/
def c6Event : TracingEvent :=
  { metadata := { level := .error, target := "t", name := "event src", module_path := none }
    fields := [("e", .error [{ ty := "MyError", value := some "boom" }])] }

/-- Witness for `convert_tracing_event_exceptions`: at `c6Event` the
error-kind hypothesis holds and the exception list is exactly the
extracted records. -/
theorem convert_tracing_event_exceptions_witness :
    (∃ nv ∈ c6Event.fields, nv.2.errorExns ≠ []) ∧
    (convert_tracing_event c6Event none true (some 7) {}).exception =
      (runVisitor {} c6Event.fields {}).expections :=
  ⟨⟨("e", .error [{ ty := "MyError", value := some "boom" }]), by decide⟩,
    (convert_tracing_event_exceptions c6Event none true (some 7) {}).1
      ⟨("e", .error [{ ty := "MyError", value := some "boom" }]), by decide⟩⟩

/-- Every UUID stored in a live node is below the generator counter
(freshness invariant of the `Uuid::new_v4` model). -/
def UuidBound (st : LayerState) : Prop :=
  ∀ e ∈ st.nodes, e.2.span_id < st.nextUuid ∧ e.2.trace_id < st.nextUuid

instance (st : LayerState) : Decidable (UuidBound st) := by
  unfold UuidBound
  infer_instance

/-- A successful lookup comes from a list entry. -/
theorem lookupN_mem {α : Type} (m : List (Nat × α)) (k : Nat) (v : α)
    (h : lookupN m k = some v) : (k, v) ∈ m := by
  induction m with
  | nil => simp [lookupN] at h
  | cons hd tl ih =>
    obtain ⟨k', v'⟩ := hd
    by_cases hk : k' = k
    · subst hk
      simp only [lookupN, if_pos rfl] at h
      injection h with h
      subst h
      exact List.mem_cons_self _ _
    · simp only [lookupN, if_neg hk] at h
      exact List.mem_cons_of_mem _ (ih h)

/-- C2 amended: `Trace::new` consults only the immediate parent.  When
the immediate parent owns a live node, its `trace_id` is inherited;
otherwise — even if a farther ancestor owns a live node — a fresh
`trace_id` is generated, distinct from every `trace_id` stored in any
live node. -/
theorem trace_id_immediate_parent_only :
    ∀ (st : LayerState) (parent : Option Nat) (now wall : Nat),
      UuidBound st →
      (∀ p pt, parent = some p → lookupN st.nodes p = some pt →
        (Trace.new st parent now wall).1.trace_id = pt.trace_id) ∧
      ((parent = none ∨ ∃ p, parent = some p ∧ lookupN st.nodes p = none) →
        ∀ q qt, lookupN st.nodes q = some qt →
          (Trace.new st parent now wall).1.trace_id ≠ qt.trace_id) := by
  intro st parent now wall hb
  constructor
  · intro p pt hp hl
    subst hp
    simp [Trace.new, hl]
  · intro hcase q qt hq
    have hfresh : (Trace.new st parent now wall).1.trace_id = st.nextUuid := by
      rcases hcase with hnone | ⟨p, hp, hl⟩
      · subst hnone; simp [Trace.new]
      · subst hp; simp [Trace.new, hl]
    rw [hfresh]
    have h2 : qt.trace_id < st.nextUuid := (hb (q, qt) (lookupN_mem _ _ _ hq)).2
    omega

/-- A concrete one-node state for the C2 witness. -/
def c2State : LayerState :=
  { nodes := [(0, { span_id := 1, trace_id := 0, last := 0, first := 0, last_sys := 0 })]
    nextUuid := 2 }

/-- Witness for `trace_id_immediate_parent_only`: creating a span whose
immediate parent (id 5) has no node yields a trace id different from
the live node's. -/
theorem trace_id_immediate_parent_only_witness :
    UuidBound c2State ∧
    (Trace.new c2State (some 5) 3 3).1.trace_id ≠
      (Trace.mk 1 0 {} [] 0 0 0 0 0).trace_id :=
  ⟨by decide,
    (trace_id_immediate_parent_only c2State (some 5) 3 3 (by decide)).2
      (Or.inr ⟨5, rfl, rfl⟩) 0 (Trace.mk 1 0 {} [] 0 0 0 0 0) rfl⟩

/-- The execution refuting C2 as stated: span 0 is a tracked root, span
1 is excluded by the filter (no node), span 2 is created under 1. -/
def c2Ops : List Op :=
  [.create 0 none true "root" [] 0 0,
   .create 1 (some 0) false "mid" [] 1 1,
   .create 2 (some 1) true "leaf" [] 2 2]

/-- The state after running `c2Ops`. -/
def c2G : GState := grun {} {} c2Ops

/-- C2 counterexample: in `c2Ops` the ancestor chain of span 2 is
`[1, 0]`, span 1 owns no node while span 0 owns a live node with
`trace_id = 0` (the nearest live ancestor), yet span 2 is created with
the fresh `trace_id = 2` instead of inheriting `0`. -/
theorem trace_id_nearest_ancestor_counterexample :
    validRun {} {} c2Ops = true ∧
    chainOf c2G 2 = [1, 0] ∧
    lookupN c2G.st.nodes 1 = none ∧
    (lookupN c2G.st.nodes 0).map Trace.trace_id = some 0 ∧
    (lookupN c2G.st.nodes 2).map Trace.trace_id = some 2 := by
  refine ⟨by decide, by decide, by decide, by decide, by decide⟩

/-- Lookup after inserting at the same key. -/
theorem lookupN_insertN_self {α : Type} (m : List (Nat × α)) (k : Nat) (v : α) :
    lookupN (insertN m k v) k = some v := by
  simp [insertN, lookupN]

/-- Lookup after erasing the same key. -/
theorem lookupN_eraseN_self {α : Type} (m : List (Nat × α)) (k : Nat) :
    lookupN (eraseN m k) k = none := by
  induction m with
  | nil => rfl
  | cons hd tl ih =>
    obtain ⟨k', v⟩ := hd
    by_cases h : k' = k
    · simpa [eraseN, h] using ih
    · simpa [eraseN, lookupN, h] using ih

/-- Lookup after erasing a different key. -/
theorem lookupN_eraseN_ne {α : Type} (m : List (Nat × α)) {n k : Nat}
    (h : n ≠ k) : lookupN (eraseN m n) k = lookupN m k := by
  induction m with
  | nil => rfl
  | cons hd tl ih =>
    obtain ⟨k', v⟩ := hd
    by_cases hn : k' = n
    · subst hn
      simp [eraseN, lookupN, h, ih]
    · simp only [eraseN, if_neg hn, lookupN]
      by_cases hk : k' = k
      · simp [hk]
      · simp [hk, ih]

/-- Lookup after inserting at a different key. -/
theorem lookupN_insertN_ne {α : Type} (m : List (Nat × α)) {n k : Nat} (v : α)
    (h : n ≠ k) : lookupN (insertN m n v) k = lookupN m k := by
  simp [insertN, lookupN, h, lookupN_eraseN_ne m h]

/-- Membership in an erased list. -/
theorem mem_eraseN_iff {α : Type} (m : List (Nat × α)) (k : Nat) (e : Nat × α) :
    e ∈ eraseN m k ↔ e ∈ m ∧ e.1 ≠ k := by
  induction m with
  | nil => simp [eraseN]
  | cons hd tl ih =>
    obtain ⟨k', v⟩ := hd
    by_cases h : k' = k
    · subst h
      have herase : eraseN ((k', v) :: tl) k' = eraseN tl k' := by
        simp [eraseN]
      rw [herase, ih]
      simp only [List.mem_cons]
      constructor
      · rintro ⟨hm, hne⟩
        exact ⟨Or.inr hm, hne⟩
      · rintro ⟨rfl | hm, hne⟩
        · exact absurd rfl hne
        · exact ⟨hm, hne⟩
    · have herase : eraseN ((k', v) :: tl) k = (k', v) :: eraseN tl k := by
        simp [eraseN, h]
      rw [herase]
      simp only [List.mem_cons, ih]
      constructor
      · rintro (rfl | ⟨hm, hne⟩)
        · exact ⟨Or.inl rfl, h⟩
        · exact ⟨Or.inr hm, hne⟩
      · rintro ⟨rfl | hm, hne⟩
        · exact Or.inl rfl
        · exact Or.inr ⟨hm, hne⟩

/-- Membership in an inserted list. -/
theorem mem_insertN_iff {α : Type} (m : List (Nat × α)) (k : Nat) (v : α) (e : Nat × α) :
    e ∈ insertN m k v ↔ e = (k, v) ∨ (e ∈ m ∧ e.1 ≠ k) := by
  simp [insertN, List.mem_cons, mem_eraseN_iff]

/-- A key avoided by every entry looks up to nothing. -/
theorem lookupN_eq_none {α : Type} (m : List (Nat × α)) (k : Nat)
    (h : ∀ e ∈ m, e.1 ≠ k) : lookupN m k = none := by
  cases hl : lookupN m k with
  | none => rfl
  | some v => exact absurd rfl (h _ (lookupN_mem _ _ _ hl))

/-- Timing bookkeeping invariant: every live node belongs to a created
span, carries its creation instant in the ghost table, satisfies
`last = creation + busy + idle`, and its `last` is no later than the
current clock. -/
def TimingInv (G : GState) : Prop :=
  ∀ e ∈ G.st.nodes, e.1 ∈ G.created ∧
    ∃ t0, lookupN G.ctime e.1 = some t0 ∧
      e.2.last = t0 + e.2.busy + e.2.idle ∧ e.2.last ≤ G.clock

/-- Shape of a successful ancestor attachment: the target is a chain
element owning a node, and only its `spans` buffer changes. -/
theorem attachToAncestor_eq (nodes : List (Nat × Trace)) (chain : List Nat)
    (spans : List PSpan) (sd : PSpan) :
    attachToAncestor nodes chain spans sd = none ∨
    ∃ p pt, p ∈ chain ∧ lookupN nodes p = some pt ∧
      attachToAncestor nodes chain spans sd =
        some (insertN nodes p
          { pt with spans :=
              pt.spans ++ spans ++ [{ sd with parent_span_id := some pt.span_id }] }) := by
  induction chain with
  | nil => exact Or.inl rfl
  | cons p rest ih =>
    cases hl : lookupN nodes p with
    | some pt =>
      exact Or.inr ⟨p, pt, List.mem_cons_self _ _, hl, by simp [attachToAncestor, hl]⟩
    | none =>
      rcases ih with hnone | ⟨q, qt, hq, hql, hqe⟩
      · exact Or.inl (by simp [attachToAncestor, hl, hnone])
      · exact Or.inr ⟨q, qt, List.mem_cons_of_mem _ hq, hql,
          by simp [attachToAncestor, hl, hqe]⟩

/-- One valid step preserves the timing invariant. -/
theorem timingInv_gstep (cfg : FieldVisitorConfig) (G : GState) (op : Op)
    (hv : validOp G op = true) (hI : TimingInv G) : TimingInv (gstep cfg G op) := by
  cases op with
  | create id parent tracked nm attrs now wall =>
    simp only [validOp, Bool.and_eq_true, decide_eq_true_eq] at hv
    obtain ⟨⟨hfresh, _⟩, hclock⟩ := hv
    have hnone : lookupN G.st.nodes id = none :=
      lookupN_eq_none _ _ (fun e he hEq => hfresh (hEq ▸ (hI e he).1))
    by_cases ht : tracked
    · intro e he
      simp only [gstep, ht, if_true, spanLayer_new_span, hnone] at he ⊢
      rw [mem_insertN_iff] at he
      rcases he with rfl | ⟨he, hne⟩
      · refine ⟨by simp, now, ?_⟩
        simp [Trace.new, lookupN_insertN_self]
        cases hb : (parent.bind fun p => (lookupN G.st.nodes p).map fun t => t.trace_id) <;>
          simp [hb]
      · obtain ⟨hc, t0, hct, hlast, hcl⟩ := hI e he
        refine ⟨by simp [hc], t0, ?_, hlast, le_trans hcl hclock⟩
        rw [lookupN_insertN_ne _ _ (fun hc' => hne hc'.symm)]
        exact hct
    · intro e he
      simp only [gstep, ht, if_false] at he ⊢
      obtain ⟨hc, t0, hct, hlast, hcl⟩ := hI e he
      simp only [Bool.false_eq_true, if_false]
      exact ⟨by simp [hc], t0, hct, hlast, le_trans hcl hclock⟩
  | enter id now =>
    simp only [validOp, Bool.and_eq_true, decide_eq_true_eq] at hv
    obtain ⟨_, hclock⟩ := hv
    intro e he
    cases hl : lookupN G.st.nodes id with
    | none =>
      simp only [gstep, spanLayer_on_enter, hl] at he ⊢
      obtain ⟨hc, t0, hct, hlast, hcl⟩ := hI e he
      exact ⟨hc, t0, hct, hlast, le_trans hcl hclock⟩
    | some t =>
      simp only [gstep, spanLayer_on_enter, hl] at he ⊢
      rw [mem_insertN_iff] at he
      rcases he with rfl | ⟨he, hne⟩
      · obtain ⟨hc, t0, hct, hlast, hcl⟩ := hI (id, t) (lookupN_mem _ _ _ hl)
        have hct' : lookupN G.ctime id = some t0 := hct
        have hlast' : t.last = t0 + t.busy + t.idle := hlast
        have hcl' : t.last ≤ G.clock := hcl
        refine ⟨hc, t0, hct', ?_, ?_⟩
        · simp only
          omega
        · simp only
          omega
      · obtain ⟨hc, t0, hct, hlast, hcl⟩ := hI e he
        exact ⟨hc, t0, hct, hlast, le_trans hcl hclock⟩
  | exit id now wall =>
    simp only [validOp, Bool.and_eq_true, decide_eq_true_eq] at hv
    obtain ⟨_, hclock⟩ := hv
    intro e he
    cases hl : lookupN G.st.nodes id with
    | none =>
      simp only [gstep, spanLayer_on_exit, hl] at he ⊢
      obtain ⟨hc, t0, hct, hlast, hcl⟩ := hI e he
      exact ⟨hc, t0, hct, hlast, le_trans hcl hclock⟩
    | some t =>
      simp only [gstep, spanLayer_on_exit, hl] at he ⊢
      rw [mem_insertN_iff] at he
      rcases he with rfl | ⟨he, hne⟩
      · obtain ⟨hc, t0, hct, hlast, hcl⟩ := hI (id, t) (lookupN_mem _ _ _ hl)
        have hct' : lookupN G.ctime id = some t0 := hct
        have hlast' : t.last = t0 + t.busy + t.idle := hlast
        have hcl' : t.last ≤ G.clock := hcl
        refine ⟨hc, t0, hct', ?_, ?_⟩
        · simp only
          omega
        · simp only
          omega
      · obtain ⟨hc, t0, hct, hlast, hcl⟩ := hI e he
        exact ⟨hc, t0, hct, hlast, le_trans hcl hclock⟩
  | close id now =>
    simp only [validOp, Bool.and_eq_true, decide_eq_true_eq] at hv
    obtain ⟨_, hclock⟩ := hv
    intro e he
    cases hl : lookupN G.st.nodes id with
    | none =>
      simp only [gstep, spanLayer_on_close, hl] at he ⊢
      obtain ⟨hc, t0, hct, hlast, hcl⟩ := hI e he
      exact ⟨hc, t0, hct, hlast, le_trans hcl hclock⟩
    | some trace =>
      simp only [gstep, spanLayer_on_close, hl] at he ⊢
      rcases attachToAncestor_eq (eraseN G.st.nodes id) ((lookupN G.st.ancestors id).getD [])
          trace.spans (mkSpanData trace ((lookupN G.st.names id).getD "") now) with
        hnone | ⟨p, pt, hp, hpl, hpe⟩
      · simp only [hnone] at he
        rw [mem_eraseN_iff] at he
        obtain ⟨hc, t0, hct, hlast, hcl⟩ := hI e he.1
        exact ⟨hc, t0, hct, hlast, le_trans hcl hclock⟩
      · simp only [hpe] at he
        rw [mem_insertN_iff] at he
        rcases he with rfl | ⟨he, hne⟩
        · have hmem : (p, pt) ∈ G.st.nodes ∧ p ≠ id :=
            (mem_eraseN_iff _ _ _).mp (lookupN_mem _ _ _ hpl)
          obtain ⟨hc, t0, hct, hlast, hcl⟩ := hI (p, pt) hmem.1
          exact ⟨hc, t0, hct, hlast, le_trans hcl hclock⟩
        · rw [mem_eraseN_iff] at he
          obtain ⟨hc, t0, hct, hlast, hcl⟩ := hI e he.1
          exact ⟨hc, t0, hct, hlast, le_trans hcl hclock⟩

/-- Validity splits over concatenation. -/
theorem validRun_append (cfg : FieldVisitorConfig) (G : GState) (xs ys : List Op) :
    validRun cfg G (xs ++ ys) =
      (validRun cfg G xs && validRun cfg (grun cfg G xs) ys) := by
  induction xs generalizing G with
  | nil => simp [validRun, grun]
  | cons op tl ih =>
    simp only [List.cons_append, validRun, grun, List.append_eq, ih, Bool.and_assoc]

/-- A valid run preserves the timing invariant. -/
theorem timingInv_grun (cfg : FieldVisitorConfig) (G : GState) (ops : List Op)
    (hv : validRun cfg G ops = true) (hI : TimingInv G) :
    TimingInv (grun cfg G ops) := by
  induction ops generalizing G with
  | nil => exact hI
  | cons op tl ih =>
    rw [validRun, Bool.and_eq_true] at hv
    exact ih _ hv.2 (timingInv_gstep cfg G op hv.1 hI)

/-- The `busy` and `idle` entries merged into the summary's data map. -/
theorem mkSpanData_busy_idle (tr : Trace) (name : String) (now : Nat) :
    lookupKV (mkSpanData tr name now).data "busy" = some (.num (Int.ofNat tr.busy)) ∧
    lookupKV (mkSpanData tr name now).data "idle" =
      some (.num (Int.ofNat (tr.idle + (now - tr.last)))) := by
  constructor
  · show lookupKV (insertKV (insertKV tr.visitor.json_values "busy" _) "idle" _) "busy" = _
    rw [lookupKV_insertKV_ne _ _ (by decide), lookupKV_insertKV_self]
  · exact lookupKV_insertKV_self _ _ _

/-- C4: for a tracked span created at instant `t0` in any valid
execution with a non-decreasing monotonic clock, the `busy` and `idle`
totals recorded at close (including the final flush of the in-progress
idle interval) sum to exactly the monotonic time elapsed between the
span's creation and its close. -/
theorem busy_idle_conservation :
    ∀ (cfg : FieldVisitorConfig) (ops : List Op) (id now : Nat) (tr : Trace) (t0 : Nat)
      (name : String),
      validRun cfg {} (ops ++ [.close id now]) = true →
      lookupN (grun cfg {} ops).st.nodes id = some tr →
      lookupN (grun cfg {} ops).ctime id = some t0 →
      lookupKV (mkSpanData tr name now).data "busy" = some (.num (Int.ofNat tr.busy)) ∧
      lookupKV (mkSpanData tr name now).data "idle" =
        some (.num (Int.ofNat (tr.idle + (now - tr.last)))) ∧
      tr.busy + (tr.idle + (now - tr.last)) = now - t0 := by
  intro cfg ops id now tr t0 name hv hnode hct
  rw [validRun_append, Bool.and_eq_true] at hv
  obtain ⟨hv1, hv2⟩ := hv
  rw [validRun, Bool.and_eq_true] at hv2
  have hop := hv2.1
  simp only [validOp, Bool.and_eq_true, decide_eq_true_eq] at hop
  have hclock : (grun cfg {} ops).clock ≤ now := hop.2
  have hTI := timingInv_grun cfg {} ops hv1 (fun e he => absurd he (List.not_mem_nil e))
  obtain ⟨_, t0', hct', hlast, hcl⟩ := hTI (id, tr) (lookupN_mem _ _ _ hnode)
  have ht0 : t0' = t0 := by
    have : some t0' = some t0 := hct' ▸ hct
    injection this
  rw [ht0] at hlast
  have hlast2 : tr.last = t0 + tr.busy + tr.idle := hlast
  have hcl2 : tr.last ≤ (grun cfg {} ops).clock := hcl
  obtain ⟨hb, hi⟩ := mkSpanData_busy_idle tr name now
  exact ⟨hb, hi, by omega⟩

/-- The execution for the C4 witness: create at 5, enter at 7, exit at
11, re-enter at 13. -/
def c4Ops : List Op :=
  [.create 0 none true "s" [] 5 5, .enter 0 7, .exit 0 11 11, .enter 0 13]

/-- The node of span 0 after `c4Ops`. -/
def c4Tr : Trace :=
  { span_id := 1, trace_id := 0, visitor := {}, spans := [], idle := 4, busy := 4,
    last := 13, first := 5, last_sys := 11 }

/-- Witness for `busy_idle_conservation`: closing at instant 20, the
recorded totals sum to 15 = 20 - 5. -/
theorem busy_idle_conservation_witness :
    validRun {} {} (c4Ops ++ [.close 0 20]) = true ∧
    lookupN (grun {} {} c4Ops).st.nodes 0 = some c4Tr ∧
    c4Tr.busy + (c4Tr.idle + (20 - c4Tr.last)) = 20 - 5 :=
  ⟨by decide, by decide,
    (busy_idle_conservation {} c4Ops 0 20 c4Tr 5 "s" (by decide) (by decide)
      (by decide)).2.2⟩

/-- The nearest tracked ancestor of a span (the first element of its
registry chain admitted by the span filter). -/
def targetOf (G : GState) (t : Nat) : Option Nat :=
  (chainOf G t).find? (fun p => decide (p ∈ G.tracked))

/-- The first element of a chain owning a live node. -/
def firstNode (nodes : List (Nat × Trace)) (c : List Nat) : Option Nat :=
  c.find? (fun p => (lookupN nodes p).isSome)

/-- The nearest ancestor of a span owning a live node (the ancestor a
closing span attaches to). -/
def holderOf (G : GState) (t : Nat) : Option Nat :=
  firstNode G.st.nodes (chainOf G t)

/-- The farthest tracked ancestor of a span: the root of the trace tree
the span's summary ultimately lands in. -/
def lastTrackedOf (G : GState) (t : Nat) : Option Nat :=
  ((chainOf G t).filter (fun p => decide (p ∈ G.tracked))).getLast?

/-- A trace root: a tracked span with no tracked ancestor. -/
def isRoot (G : GState) (r : Nat) : Prop :=
  r ∈ G.tracked ∧ targetOf G r = none

/-- Number of summaries carrying a given span UUID in a buffer. -/
def countU (u : Nat) (l : List PSpan) : Nat :=
  (l.filter (fun s => decide (s.span_id = u))).length

/-- Summary with UUID `u` occurs before summary with UUID `v` in a
buffer. -/
def beforeIn (l : List PSpan) (u v : Nat) : Prop :=
  ∃ (i j : Nat) (hi : i < l.length) (hj : j < l.length),
    i < j ∧ (l.get ⟨i, hi⟩).span_id = u ∧ (l.get ⟨j, hj⟩).span_id = v

/-- Counting distributes over append. -/
theorem countU_append (u : Nat) (l1 l2 : List PSpan) :
    countU u (l1 ++ l2) = countU u l1 + countU u l2 := by
  simp [countU, List.filter_append]

/-- Count of a singleton. -/
theorem countU_singleton (u : Nat) (s : PSpan) :
    countU u [s] = if s.span_id = u then 1 else 0 := by
  by_cases h : s.span_id = u <;> simp [countU, h]

/-- A zero count means the UUID is absent. -/
theorem countU_eq_zero_iff (u : Nat) (l : List PSpan) :
    countU u l = 0 ↔ ∀ s ∈ l, s.span_id ≠ u := by
  simp [countU, List.length_eq_zero, List.filter_eq_nil_iff]

/-- A positive count yields a member. -/
theorem countU_pos_mem (u : Nat) (l : List PSpan) (h : countU u l ≠ 0) :
    ∃ s ∈ l, s.span_id = u := by
  by_contra hc
  push_neg at hc
  exact h ((countU_eq_zero_iff u l).mpr hc)

/-- Splitting form of a successful `find?`. -/
theorem find?_eq_some_split {α : Type} {p : α → Bool} {l : List α} {a : α}
    (h : l.find? p = some a) :
    ∃ pre rest, l = pre ++ a :: rest ∧ (∀ x ∈ pre, p x = false) ∧ p a = true := by
  induction l with
  | nil => simp [List.find?] at h
  | cons hd tl ih =>
    cases hp : p hd with
    | true =>
      rw [List.find?_cons_of_pos _ hp] at h
      injection h with h
      subst h
      exact ⟨[], tl, rfl, by simp, hp⟩
    | false =>
      rw [List.find?_cons_of_neg _ (by simp [hp])] at h
      obtain ⟨pre, rest, hsplit, hpre, hpa⟩ := ih h
      refine ⟨hd :: pre, rest, by simp [hsplit], ?_, hpa⟩
      intro x hx
      rcases List.mem_cons.mp hx with rfl | hx
      · exact hp
      · exact hpre x hx

/-- Reassembling form of `find?` over a split list. -/
theorem find?_split_eq_some {α : Type} {p : α → Bool} (pre rest : List α) (a : α)
    (hpre : ∀ x ∈ pre, p x = false) (hpa : p a = true) :
    (pre ++ a :: rest).find? p = some a := by
  induction pre with
  | nil => simp [List.find?_cons_of_pos _ hpa]
  | cons hd tl ih =>
    rw [List.cons_append, List.find?_cons_of_neg _ (by simp [hpre hd (by simp)])]
    exact ih (fun x hx => hpre x (List.mem_cons_of_mem _ hx))

/-- Two predicates agreeing on a list find the same element. -/
theorem find?_congr_pred {α : Type} {p q : α → Bool} {l : List α}
    (h : ∀ x ∈ l, p x = q x) : l.find? p = l.find? q := by
  induction l with
  | nil => rfl
  | cons hd tl ih =>
    have hhd : p hd = q hd := h hd (by simp)
    cases hq : q hd with
    | true =>
      rw [List.find?_cons_of_pos _ (hhd ▸ hq), List.find?_cons_of_pos _ hq]
    | false =>
      rw [List.find?_cons_of_neg _ (by simp [hhd, hq]),
        List.find?_cons_of_neg _ (by simp [hq])]
      exact ih (fun x hx => h x (List.mem_cons_of_mem _ hx))

/-- Close-order relation between two summaries in a buffer: whenever
both owners share the same nearest tracked ancestor, the first summary's
owner closed first. -/
def ordRel (G : GState) (a b : PSpan) : Prop :=
  ∀ ta tb p, lookupN G.suuid ta = some a.span_id → lookupN G.suuid tb = some b.span_id →
    targetOf G ta = some p → targetOf G tb = some p →
    G.closedL.indexOf ta < G.closedL.indexOf tb

/-- The global invariant of the span aggregation engine, tying the
machine state to the ghost bookkeeping.  The heart is `mem_node` /
`mem_tx`: the summary of a closed tracked span lives exactly once in
the buffer of its nearest still-open tracked ancestor, or — when none
remains — exactly once in the transaction of its trace root; `ord_node`
/ `ord_tx` keep every buffer sorted by close order among summaries
sharing an attachment target. -/
structure SpanInv (G : GState) : Prop where
  created_chain : ∀ t, t ∈ G.created ↔ (lookupN G.st.ancestors t).isSome = true
  chain_created : ∀ t, ∀ p ∈ chainOf G t, p ∈ G.created
  chain_self : ∀ t, t ∉ chainOf G t
  chain_head : ∀ t, chainOf G t = [] ∨ ∃ p, chainOf G t = p :: chainOf G p
  closed_created : ∀ t ∈ G.closedL, t ∈ G.created
  tracked_created : ∀ t ∈ G.tracked, t ∈ G.created
  closed_nodup : G.closedL.Nodup
  open_anc : ∀ s ∈ G.created, s ∉ G.closedL → ∀ p ∈ chainOf G s, p ∉ G.closedL
  node_iff : ∀ t, (lookupN G.st.nodes t).isSome = true ↔
    (t ∈ G.tracked ∧ t ∉ G.closedL)
  suuid_dom : ∀ t, (lookupN G.suuid t).isSome = true ↔ t ∈ G.tracked
  tuuid_dom : ∀ t, (lookupN G.tuuid t).isSome = true ↔ t ∈ G.tracked
  node_uuid : ∀ t tr, lookupN G.st.nodes t = some tr →
    lookupN G.suuid t = some tr.span_id ∧ lookupN G.tuuid t = some tr.trace_id
  suuid_bound : ∀ t u, lookupN G.suuid t = some u → u < G.st.nextUuid
  tuuid_bound : ∀ t u, lookupN G.tuuid t = some u → u < G.st.nextUuid
  suuid_inj : ∀ t1 t2 u, lookupN G.suuid t1 = some u → lookupN G.suuid t2 = some u →
    t1 = t2
  tuuid_root_inj : ∀ r1 r2 u, isRoot G r1 → isRoot G r2 →
    lookupN G.tuuid r1 = some u → lookupN G.tuuid r2 = some u → r1 = r2
  tuuid_parent : ∀ t ∈ G.tracked, ∀ p, (chainOf G t).head? = some p → p ∈ G.tracked →
    lookupN G.tuuid t = lookupN G.tuuid p
  mem_node : ∀ t, t ∈ G.tracked → t ∈ G.closedL → ∀ u, lookupN G.suuid t = some u →
    ∀ p pt, lookupN G.st.nodes p = some pt →
      countU u pt.spans = if holderOf G t = some p then 1 else 0
  mem_tx : ∀ t, t ∈ G.tracked → t ∈ G.closedL → ∀ u, lookupN G.suuid t = some u →
    ∀ tx ∈ G.st.sent,
      countU u tx.spans =
        if holderOf G t = none ∧
            (∃ r, lastTrackedOf G t = some r ∧ lookupN G.tuuid r = some tx.event_id)
          then 1 else 0
  buf_owned : ∀ p pt, lookupN G.st.nodes p = some pt → ∀ s ∈ pt.spans,
    ∃ t, t ∈ G.tracked ∧ t ∈ G.closedL ∧ lookupN G.suuid t = some s.span_id
  tx_owned : ∀ tx ∈ G.st.sent, ∀ s ∈ tx.spans,
    ∃ t, t ∈ G.tracked ∧ t ∈ G.closedL ∧ lookupN G.suuid t = some s.span_id
  sent_count : ∀ r, isRoot G r → ∀ u, lookupN G.tuuid r = some u →
    (G.st.sent.filter (fun tx => decide (tx.event_id = u))).length =
      if r ∈ G.closedL then 1 else 0
  sent_owned : ∀ tx ∈ G.st.sent, ∃ r, isRoot G r ∧ r ∈ G.closedL ∧
    lookupN G.tuuid r = some tx.event_id
  ord_node : ∀ p pt, lookupN G.st.nodes p = some pt → pt.spans.Pairwise (ordRel G)
  ord_tx : ∀ tx ∈ G.st.sent, tx.spans.Pairwise (ordRel G)

/-- The invariant holds initially. -/
theorem inv_init : SpanInv {} := by
  constructor <;>
    first
      | intro t; simp [chainOf, lookupN]
      | intro t ht; cases ht
      | intro t tr h; cases h
      | intro t u h; cases h
      | simp
      | intro tx htx; cases htx
      | intro p pt h; cases h
      | intro t h1 h2; cases h1
      | intro r hr; exact absurd hr.2 (by simp [targetOf, chainOf, lookupN])

/-- Chains are duplicate-free (derived by strong induction on the chain
length from `chain_head` and `chain_self`). -/
theorem inv_chain_nodup {G : GState} (hI : SpanInv G) (t : Nat) : (chainOf G t).Nodup := by
  suffices h : ∀ n t, (chainOf G t).length ≤ n → (chainOf G t).Nodup by
    exact h (chainOf G t).length t le_rfl
  intro n
  induction n with
  | zero =>
    intro t ht
    rw [List.length_eq_zero.mp (Nat.le_zero.mp ht)]
    exact List.nodup_nil
  | succ n ih =>
    intro t ht
    rcases hI.chain_head t with hnil | ⟨p, hp⟩
    · rw [hnil]; exact List.nodup_nil
    · rw [hp]
      refine List.Nodup.cons ?_ (ih p ?_)
      · exact hI.chain_self p
      · have : (chainOf G t).length = (chainOf G p).length + 1 := by rw [hp]; rfl
        omega

/-- Every chain element heads a suffix consisting of itself and its own
chain. -/
theorem inv_chain_suffix {G : GState} (hI : SpanInv G) (t p : Nat)
    (hp : p ∈ chainOf G t) : (p :: chainOf G p) <:+ chainOf G t := by
  suffices h : ∀ n t, (chainOf G t).length ≤ n → p ∈ chainOf G t →
      (p :: chainOf G p) <:+ chainOf G t by
    exact h (chainOf G t).length t le_rfl hp
  intro n
  induction n with
  | zero =>
    intro t ht hmem
    rw [List.length_eq_zero.mp (Nat.le_zero.mp ht)] at hmem
    cases hmem
  | succ n ih =>
    intro t ht hmem
    rcases hI.chain_head t with hnil | ⟨q, hq⟩
    · rw [hnil] at hmem; cases hmem
    · rw [hq] at hmem ⊢
      rcases List.mem_cons.mp hmem with rfl | hmem
      · exact List.suffix_refl _
      · have hlen : (chainOf G q).length ≤ n := by
          have : (chainOf G t).length = (chainOf G q).length + 1 := by rw [hq]; rfl
          omega
        exact (ih q hlen hmem).trans (List.suffix_cons q _)

/-- Splitting a chain at an element: everything after it is the
element's own chain, and the element occurs nowhere else. -/
theorem inv_chain_split {G : GState} (hI : SpanInv G) (t p : Nat)
    (hp : p ∈ chainOf G t) :
    ∃ pre, chainOf G t = pre ++ p :: chainOf G p ∧ p ∉ pre ∧ p ∉ chainOf G p := by
  obtain ⟨pre, hpre⟩ := inv_chain_suffix hI t p hp
  refine ⟨pre, hpre.symm, ?_, hI.chain_self p⟩
  have hnd := inv_chain_nodup hI t
  rw [← hpre] at hnd
  intro hmem
  exact (List.disjoint_of_nodup_append hnd) hmem (List.mem_cons_self _ _)

/-- The invariant only depends on the machine components it mentions
(nodes, ancestors, sent, the UUID counter) and the ghost components
(created, closed, tracked, span/trace UUID tables). -/
theorem spanInv_of_eq (G' G : GState)
    (h1 : G'.st.nodes = G.st.nodes) (h2 : G'.st.ancestors = G.st.ancestors)
    (h3 : G'.st.sent = G.st.sent) (h4 : G'.st.nextUuid = G.st.nextUuid)
    (h5 : G'.created = G.created) (h6 : G'.closedL = G.closedL)
    (h7 : G'.tracked = G.tracked) (h8 : G'.suuid = G.suuid)
    (h9 : G'.tuuid = G.tuuid) (hI : SpanInv G) : SpanInv G' := by
  have hch : chainOf G' = chainOf G := funext fun t => by rw [chainOf, chainOf, h2]
  have htg : targetOf G' = targetOf G := funext fun t => by
    rw [targetOf, targetOf, hch, h7]
  have hho : holderOf G' = holderOf G := funext fun t => by
    rw [holderOf, holderOf, hch, h1]
  have hlt : lastTrackedOf G' = lastTrackedOf G := funext fun t => by
    rw [lastTrackedOf, lastTrackedOf, hch, h7]
  have hrt : isRoot G' = isRoot G := funext fun r => by rw [isRoot, isRoot, htg, h7]
  have hor : ordRel G' = ordRel G := funext fun a => funext fun b => by
    rw [ordRel, ordRel, h8, h6, htg]
  constructor <;>
    simp only [h1, h2, h3, h4, h5, h6, h7, h8, h9, hch, htg, hho, hlt, hrt, hor] <;>
    first
      | exact hI.created_chain
      | exact hI.chain_created
      | exact hI.chain_self
      | exact hI.chain_head
      | exact hI.closed_created
      | exact hI.tracked_created
      | exact hI.closed_nodup
      | exact hI.open_anc
      | exact hI.node_iff
      | exact hI.suuid_dom
      | exact hI.tuuid_dom
      | exact hI.node_uuid
      | exact hI.suuid_bound
      | exact hI.tuuid_bound
      | exact hI.suuid_inj
      | exact hI.tuuid_root_inj
      | exact hI.tuuid_parent
      | exact hI.mem_node
      | exact hI.mem_tx
      | exact hI.buf_owned
      | exact hI.tx_owned
      | exact hI.sent_count
      | exact hI.sent_owned
      | exact hI.ord_node
      | exact hI.ord_tx

/-- Shape of an `enter` step when the span has no node. -/
theorem gstep_enter_none (cfg : FieldVisitorConfig) (G : GState) (id now : Nat)
    (hl : lookupN G.st.nodes id = none) :
    gstep cfg G (.enter id now) = { G with clock := now } := by
  simp [gstep, spanLayer_on_enter, hl]

/-- Shape of an `enter` step on a live node. -/
theorem gstep_enter_some (cfg : FieldVisitorConfig) (G : GState) (id now : Nat)
    (t : Trace) (hl : lookupN G.st.nodes id = some t) :
    gstep cfg G (.enter id now) =
      { G with
        st :=
          { G.st with
            nodes :=
              insertN G.st.nodes id
                ({ t with idle := t.idle + (now - t.last), last := now }) }
        clock := now } := by
  simp [gstep, spanLayer_on_enter, hl]

/-- Shape of an `exit` step when the span has no node. -/
theorem gstep_exit_none (cfg : FieldVisitorConfig) (G : GState) (id now wall : Nat)
    (hl : lookupN G.st.nodes id = none) :
    gstep cfg G (.exit id now wall) = { G with clock := now } := by
  simp [gstep, spanLayer_on_exit, hl]

/-- Shape of an `exit` step on a live node. -/
theorem gstep_exit_some (cfg : FieldVisitorConfig) (G : GState) (id now wall : Nat)
    (t : Trace) (hl : lookupN G.st.nodes id = some t) :
    gstep cfg G (.exit id now wall) =
      { G with
        st :=
          { G.st with
            nodes :=
              insertN G.st.nodes id
                ({ t with busy := t.busy + (now - t.last), last := now,
                          last_sys := wall }) }
        clock := now } := by
  simp [gstep, spanLayer_on_exit, hl]

/-- Replacing a live node by one with the same identity and the same
`spans` buffer (as `on_enter`/`on_exit` do with the timing fields)
preserves the invariant. -/
theorem spanInv_touch_node (G : GState) (id : Nat) (t t' : Trace) (now : Nat)
    (hl : lookupN G.st.nodes id = some t)
    (hspans : t'.spans = t.spans) (hsid : t'.span_id = t.span_id)
    (htid : t'.trace_id = t.trace_id) (hI : SpanInv G) :
    SpanInv
      { G with
        st := { G.st with nodes := insertN G.st.nodes id t' }
        clock := now } := by
  have hsome : ∀ q,
      (lookupN (insertN G.st.nodes id t') q).isSome = (lookupN G.st.nodes q).isSome := by
    intro q
    by_cases hq : id = q
    · subst hq
      rw [lookupN_insertN_self, hl]
      rfl
    · rw [lookupN_insertN_ne _ _ hq]
  have hho : ∀ q,
      holderOf
        { G with
          st := { G.st with nodes := insertN G.st.nodes id t' }
          clock := now } q = holderOf G q :=
    fun q => find?_congr_pred (fun x _ => hsome x)
  refine ⟨hI.created_chain, hI.chain_created, hI.chain_self, hI.chain_head,
    hI.closed_created, hI.tracked_created, hI.closed_nodup, hI.open_anc, ?_,
    hI.suuid_dom, hI.tuuid_dom, ?_, hI.suuid_bound, hI.tuuid_bound, hI.suuid_inj,
    hI.tuuid_root_inj, hI.tuuid_parent, ?_, ?_, ?_, hI.tx_owned, hI.sent_count,
    hI.sent_owned, ?_, hI.ord_tx⟩
  · intro q
    show (lookupN (insertN G.st.nodes id t') q).isSome = true ↔ _
    rw [hsome q]
    exact hI.node_iff q
  · intro q tr hq
    replace hq : lookupN (insertN G.st.nodes id t') q = some tr := hq
    by_cases hqid : id = q
    · subst hqid
      rw [lookupN_insertN_self] at hq
      injection hq with hq
      subst hq
      obtain ⟨hs, ht2⟩ := hI.node_uuid id t hl
      exact ⟨by rw [hsid]; exact hs, by rw [htid]; exact ht2⟩
    · rw [lookupN_insertN_ne _ _ hqid] at hq
      exact hI.node_uuid q tr hq
  · intro t0 htr hcl u hu p pt hp
    replace hp : lookupN (insertN G.st.nodes id t') p = some pt := hp
    rw [hho t0]
    by_cases hpid : id = p
    · subst hpid
      rw [lookupN_insertN_self] at hp
      injection hp with hp
      subst hp
      rw [hspans]
      exact hI.mem_node t0 htr hcl u hu id t hl
    · rw [lookupN_insertN_ne _ _ hpid] at hp
      exact hI.mem_node t0 htr hcl u hu p pt hp
  · intro t0 htr hcl u hu tx htx
    rw [hho t0]
    exact hI.mem_tx t0 htr hcl u hu tx htx
  · intro p pt hp s hs
    replace hp : lookupN (insertN G.st.nodes id t') p = some pt := hp
    by_cases hpid : id = p
    · subst hpid
      rw [lookupN_insertN_self] at hp
      injection hp with hp
      subst hp
      rw [hspans] at hs
      exact hI.buf_owned id t hl s hs
    · rw [lookupN_insertN_ne _ _ hpid] at hp
      exact hI.buf_owned p pt hp s hs
  · intro p pt hp
    replace hp : lookupN (insertN G.st.nodes id t') p = some pt := hp
    by_cases hpid : id = p
    · subst hpid
      rw [lookupN_insertN_self] at hp
      injection hp with hp
      subst hp
      rw [hspans]
      exact hI.ord_node id t hl
    · rw [lookupN_insertN_ne _ _ hpid] at hp
      exact hI.ord_node p pt hp

/-- Installing registry data for a fresh span that the span filter
rejects (no node, no ghost changes beyond `created`) preserves the
invariant. -/
theorem spanInv_create_untracked (G : GState) (id : Nat) (C : List Nat) (nm : String)
    (now : Nat) (hfresh : id ∉ G.created)
    (hC : C = [] ∨ ∃ p, p ∈ G.created ∧ p ∉ G.closedL ∧ C = p :: chainOf G p)
    (hI : SpanInv G) :
    SpanInv
      { G with
        st :=
          { G.st with
            ancestors := insertN G.st.ancestors id C
            names := insertN G.st.names id nm }
        created := G.created ++ [id]
        clock := now } := by
  have hidtr : id ∉ G.tracked := fun h => hfresh (hI.tracked_created id h)
  have hidcl : id ∉ G.closedL := fun h => hfresh (hI.closed_created id h)
  have hidch : ∀ t, id ∉ chainOf G t := fun t h => hfresh (hI.chain_created t id h)
  have hCcr : ∀ p ∈ C, p ∈ G.created := by
    rcases hC with rfl | ⟨p, hpc, _, rfl⟩
    · intro p hp; cases hp
    · intro q hq
      rcases List.mem_cons.mp hq with rfl | hq
      · exact hpc
      · exact hI.chain_created p q hq
  have hchain' : ∀ t, t ≠ id →
      chainOf
        { G with
          st :=
            { G.st with
              ancestors := insertN G.st.ancestors id C
              names := insertN G.st.names id nm }
          created := G.created ++ [id]
          clock := now } t = chainOf G t := by
    intro t ht
    show (lookupN (insertN G.st.ancestors id C) t).getD [] = _
    rw [lookupN_insertN_ne _ _ (fun h => ht h.symm)]
    rfl
  have hchid :
      chainOf
        { G with
          st :=
            { G.st with
              ancestors := insertN G.st.ancestors id C
              names := insertN G.st.names id nm }
          created := G.created ++ [id]
          clock := now } id = C := by
    show (lookupN (insertN G.st.ancestors id C) id).getD [] = C
    rw [lookupN_insertN_self]
    rfl
  refine ⟨?_, ?_, ?_, ?_, ?_, ?_, hI.closed_nodup, ?_, ?_, hI.suuid_dom, hI.tuuid_dom,
    hI.node_uuid, hI.suuid_bound, hI.tuuid_bound, hI.suuid_inj, ?_, ?_, ?_, ?_,
    hI.buf_owned, hI.tx_owned, ?_, ?_, ?_, ?_⟩
  · intro t
    by_cases ht : t = id
    · subst ht
      simp [lookupN_insertN_self]
    · show t ∈ G.created ++ [id] ↔ (lookupN (insertN G.st.ancestors id C) t).isSome = true
      rw [lookupN_insertN_ne _ _ (fun h => ht h.symm), List.mem_append]
      simp only [List.mem_singleton, ht, or_false]
      exact hI.created_chain t
  · intro t p hp
    by_cases ht : t = id
    · subst ht
      rw [hchid] at hp
      exact List.mem_append_left _ (hCcr p hp)
    · rw [hchain' t ht] at hp
      exact List.mem_append_left _ (hI.chain_created t p hp)
  · intro t
    by_cases ht : t = id
    · subst ht
      rw [hchid]
      intro hmem
      exact hfresh (hCcr _ hmem)
    · rw [hchain' t ht]
      exact hI.chain_self t
  · intro t
    by_cases ht : t = id
    · subst ht
      rw [hchid]
      rcases hC with rfl | ⟨p, hpc, _, rfl⟩
      · exact Or.inl rfl
      · refine Or.inr ⟨p, ?_⟩
        rw [hchain' p (fun h => hfresh (h ▸ hpc))]
    · rw [hchain' t ht]
      rcases hI.chain_head t with hnil | ⟨p, hp⟩
      · exact Or.inl hnil
      · refine Or.inr ⟨p, ?_⟩
        have hpcr : p ∈ G.created := by
          refine hI.chain_created t p ?_
          rw [hp]
          exact List.mem_cons_self _ _
        rw [hchain' p (fun h => hfresh (h ▸ hpcr))]
        exact hp
  · intro t ht
    exact List.mem_append_left _ (hI.closed_created t ht)
  · intro t ht
    exact List.mem_append_left _ (hI.tracked_created t ht)
  · intro s hs hscl p hp
    rcases List.mem_append.mp hs with hs | hs
    · rw [hchain' s (fun h => hfresh (h ▸ hs))] at hp
      exact hI.open_anc s hs hscl p hp
    · have hsid := List.mem_singleton.mp hs
      subst hsid
      rw [hchid] at hp
      rcases hC with rfl | ⟨q, hqc, hqcl, rfl⟩
      · cases hp
      · rcases List.mem_cons.mp hp with rfl | hp
        · exact hqcl
        · exact hI.open_anc q hqc hqcl p hp
  · exact fun t => hI.node_iff t
  · intro r1 r2 u hr1 hr2 h1 h2
    have htg' : ∀ t, t ≠ id →
        targetOf
          { G with
            st :=
              { G.st with
                ancestors := insertN G.st.ancestors id C
                names := insertN G.st.names id nm }
            created := G.created ++ [id]
            clock := now } t = targetOf G t := by
      intro t ht
      show (chainOf _ t).find? _ = _
      rw [hchain' t ht]
      rfl
    have hne1 : r1 ≠ id := fun h => hfresh (h ▸ hI.tracked_created r1 hr1.1)
    have hne2 : r2 ≠ id := fun h => hfresh (h ▸ hI.tracked_created r2 hr2.1)
    refine hI.tuuid_root_inj r1 r2 u ⟨hr1.1, ?_⟩ ⟨hr2.1, ?_⟩ h1 h2
    · rw [← htg' r1 hne1]; exact hr1.2
    · rw [← htg' r2 hne2]; exact hr2.2
  · intro t htr p hp hptr
    have hne : t ≠ id := fun h => hfresh (h ▸ hI.tracked_created t htr)
    rw [hchain' t hne] at hp
    exact hI.tuuid_parent t htr p hp hptr
  · intro t0 htr hcl u hu p pt hp
    have hne : t0 ≠ id := fun h => hfresh (h ▸ hI.tracked_created t0 htr)
    have hho' :
        holderOf
          { G with
            st :=
              { G.st with
                ancestors := insertN G.st.ancestors id C
                names := insertN G.st.names id nm }
            created := G.created ++ [id]
            clock := now } t0 = holderOf G t0 := by
      show firstNode _ (chainOf _ t0) = _
      rw [hchain' t0 hne]
      rfl
    rw [hho']
    exact hI.mem_node t0 htr hcl u hu p pt hp
  · intro t0 htr hcl u hu tx htx
    have hne : t0 ≠ id := fun h => hfresh (h ▸ hI.tracked_created t0 htr)
    have hho' :
        holderOf
          { G with
            st :=
              { G.st with
                ancestors := insertN G.st.ancestors id C
                names := insertN G.st.names id nm }
            created := G.created ++ [id]
            clock := now } t0 = holderOf G t0 := by
      show firstNode _ (chainOf _ t0) = _
      rw [hchain' t0 hne]
      rfl
    have hlt' :
        lastTrackedOf
          { G with
            st :=
              { G.st with
                ancestors := insertN G.st.ancestors id C
                names := insertN G.st.names id nm }
            created := G.created ++ [id]
            clock := now } t0 = lastTrackedOf G t0 := by
      show ((chainOf _ t0).filter _).getLast? = _
      rw [hchain' t0 hne]
      rfl
    rw [hho', hlt']
    exact hI.mem_tx t0 htr hcl u hu tx htx
  · intro r hr u hu
    have hne : r ≠ id := fun h => hfresh (h ▸ hI.tracked_created r hr.1)
    have htg' :
        targetOf
          { G with
            st :=
              { G.st with
                ancestors := insertN G.st.ancestors id C
                names := insertN G.st.names id nm }
            created := G.created ++ [id]
            clock := now } r = targetOf G r := by
      show (chainOf _ r).find? _ = _
      rw [hchain' r hne]
      rfl
    refine hI.sent_count r ⟨hr.1, ?_⟩ u hu
    rw [← htg']
    exact hr.2
  · intro tx htx
    obtain ⟨r, hr, hrc, hrt⟩ := hI.sent_owned tx htx
    have hne : r ≠ id := fun h => hfresh (h ▸ hI.tracked_created r hr.1)
    have htg' :
        targetOf
          { G with
            st :=
              { G.st with
                ancestors := insertN G.st.ancestors id C
                names := insertN G.st.names id nm }
            created := G.created ++ [id]
            clock := now } r = targetOf G r := by
      show (chainOf _ r).find? _ = _
      rw [hchain' r hne]
      rfl
    refine ⟨r, ⟨hr.1, ?_⟩, hrc, hrt⟩
    rw [htg']
    exact hr.2
  · intro p pt hp
    refine (hI.ord_node p pt hp).imp ?_
    intro a b h ta tb q hta htb hga hgb
    have hta' : lookupN G.suuid ta = some a.span_id := hta
    have htb' : lookupN G.suuid tb = some b.span_id := htb
    have htatr : ta ∈ G.tracked := (hI.suuid_dom ta).mp (by rw [hta']; rfl)
    have htbtr : tb ∈ G.tracked := (hI.suuid_dom tb).mp (by rw [htb']; rfl)
    have hnea : ta ≠ id := fun h' => hfresh (h' ▸ hI.tracked_created ta htatr)
    have hneb : tb ≠ id := fun h' => hfresh (h' ▸ hI.tracked_created tb htbtr)
    have hga' : targetOf G ta = some q := by
      rw [← hga]
      show _ = (chainOf _ ta).find? _
      rw [hchain' ta hnea]
      rfl
    have hgb' : targetOf G tb = some q := by
      rw [← hgb]
      show _ = (chainOf _ tb).find? _
      rw [hchain' tb hneb]
      rfl
    exact h ta tb q hta' htb' hga' hgb'
  · intro tx htx
    refine (hI.ord_tx tx htx).imp ?_
    intro a b h ta tb q hta htb hga hgb
    have hta' : lookupN G.suuid ta = some a.span_id := hta
    have htb' : lookupN G.suuid tb = some b.span_id := htb
    have htatr : ta ∈ G.tracked := (hI.suuid_dom ta).mp (by rw [hta']; rfl)
    have htbtr : tb ∈ G.tracked := (hI.suuid_dom tb).mp (by rw [htb']; rfl)
    have hnea : ta ≠ id := fun h' => hfresh (h' ▸ hI.tracked_created ta htatr)
    have hneb : tb ≠ id := fun h' => hfresh (h' ▸ hI.tracked_created tb htbtr)
    have hga' : targetOf G ta = some q := by
      rw [← hga]
      show _ = (chainOf _ ta).find? _
      rw [hchain' ta hnea]
      rfl
    have hgb' : targetOf G tb = some q := by
      rw [← hgb]
      show _ = (chainOf _ tb).find? _
      rw [hchain' tb hneb]
      rfl
    exact h ta tb q hta' htb' hga' hgb'

/-- Membership of the last element. -/
theorem mem_of_getLast?_eq_some {α : Type} {l : List α} {a : α}
    (h : l.getLast? = some a) : a ∈ l := by
  obtain ⟨hne, hEq⟩ := List.mem_getLast?_eq_getLast (l := l) (x := a) h
  rw [hEq]
  exact List.getLast_mem hne

/-- Pairwise transfer along an implication that may use membership. -/
theorem pairwise_imp_mem {α : Type} {R S : α → α → Prop} {l : List α}
    (h : ∀ a b, a ∈ l → b ∈ l → R a b → S a b) : l.Pairwise R → l.Pairwise S := by
  induction l with
  | nil => intro _; exact List.Pairwise.nil
  | cons hd tl ih =>
    intro hp
    rcases List.pairwise_cons.mp hp with ⟨hhd, htl⟩
    refine List.pairwise_cons.mpr ⟨?_, ?_⟩
    · intro b hb
      exact h hd b (List.mem_cons_self _ _) (List.mem_cons_of_mem _ hb) (hhd b hb)
    · exact ih (fun a b ha hb => h a b (List.mem_cons_of_mem _ ha)
        (List.mem_cons_of_mem _ hb)) htl

/-- Creating a tracked span: install the registry data, attach a fresh
node with an empty buffer, and register its UUIDs.  The node's
`span_id` is fresh; its `trace_id` is the immediate parent's when the
parent owns a node and fresh otherwise.  All this preserves the
invariant. -/
theorem spanInv_create_tracked (G : GState) (id : Nat) (C : List Nat) (nm : String)
    (tr : Trace) (next' now : Nat)
    (hfresh : id ∉ G.created)
    (hC : C = [] ∨ ∃ p, p ∈ G.created ∧ p ∉ G.closedL ∧ C = p :: chainOf G p)
    (htr_spans : tr.spans = [])
    (hsid_ge : G.st.nextUuid ≤ tr.span_id)
    (hsid_lt : tr.span_id < next')
    (htid_lt : tr.trace_id < next')
    (hnext : G.st.nextUuid ≤ next')
    (htid_head : ∀ p, C.head? = some p → p ∈ G.tracked →
      ∃ pt, lookupN G.st.nodes p = some pt ∧ tr.trace_id = pt.trace_id)
    (htid_fresh : (∀ p, C.head? = some p → p ∉ G.tracked) →
      tr.trace_id = G.st.nextUuid)
    (hI : SpanInv G) :
    SpanInv
      { G with
        st :=
          { G.st with
            nodes := insertN G.st.nodes id tr
            ancestors := insertN G.st.ancestors id C
            names := insertN G.st.names id nm
            nextUuid := next' }
        created := G.created ++ [id]
        tracked := G.tracked ++ [id]
        suuid := insertN G.suuid id tr.span_id
        tuuid := insertN G.tuuid id tr.trace_id
        ctime := insertN G.ctime id now
        clock := now } := by
  set G2 : GState :=
    { G with
      st :=
        { G.st with
          nodes := insertN G.st.nodes id tr
          ancestors := insertN G.st.ancestors id C
          names := insertN G.st.names id nm
          nextUuid := next' }
      created := G.created ++ [id]
      tracked := G.tracked ++ [id]
      suuid := insertN G.suuid id tr.span_id
      tuuid := insertN G.tuuid id tr.trace_id
      ctime := insertN G.ctime id now
      clock := now } with hG2
  have hidtr : id ∉ G.tracked := fun h => hfresh (hI.tracked_created id h)
  have hidcl : id ∉ G.closedL := fun h => hfresh (hI.closed_created id h)
  have hidch : ∀ t, id ∉ chainOf G t := fun t h => hfresh (hI.chain_created t id h)
  have hCcr : ∀ p ∈ C, p ∈ G.created := by
    rcases hC with rfl | ⟨p, hpc, _, rfl⟩
    · intro p hp; cases hp
    · intro q hq
      rcases List.mem_cons.mp hq with rfl | hq
      · exact hpc
      · exact hI.chain_created p q hq
  have ech : ∀ t, t ≠ id → chainOf G2 t = chainOf G t := by
    intro t ht
    show (lookupN (insertN G.st.ancestors id C) t).getD [] = _
    rw [lookupN_insertN_ne _ _ (fun h => ht h.symm)]
    rfl
  have ech_id : chainOf G2 id = C := by
    show (lookupN (insertN G.st.ancestors id C) id).getD [] = C
    rw [lookupN_insertN_self]
    rfl
  have etrmem : ∀ x, x ≠ id → (x ∈ G2.tracked ↔ x ∈ G.tracked) := by
    intro x hx
    show x ∈ G.tracked ++ [id] ↔ _
    simp [hx]
  have etg : ∀ t, t ≠ id → targetOf G2 t = targetOf G t := by
    intro t ht
    rw [targetOf, targetOf, ech t ht]
    refine find?_congr_pred ?_
    intro x hx
    have hxne : x ≠ id := fun h => hfresh (h ▸ hI.chain_created t x hx)
    exact decide_eq_decide.mpr (etrmem x hxne)
  have enodes : ∀ x, x ≠ id →
      lookupN G2.st.nodes x = lookupN G.st.nodes x := by
    intro x hx
    show lookupN (insertN G.st.nodes id tr) x = _
    rw [lookupN_insertN_ne _ _ (fun h => hx h.symm)]
  have eho : ∀ t, t ≠ id → holderOf G2 t = holderOf G t := by
    intro t ht
    rw [holderOf, holderOf, ech t ht, firstNode, firstNode]
    refine find?_congr_pred ?_
    intro x hx
    have hxne : x ≠ id := fun h => hfresh (h ▸ hI.chain_created t x hx)
    rw [enodes x hxne]
  have elt : ∀ t, t ≠ id → lastTrackedOf G2 t = lastTrackedOf G t := by
    intro t ht
    rw [lastTrackedOf, lastTrackedOf, ech t ht]
    congr 1
    refine List.filter_congr ?_
    intro x hx
    have hxne : x ≠ id := fun h => hfresh (h ▸ hI.chain_created t x hx)
    exact decide_eq_decide.mpr (etrmem x hxne)
  have esu : ∀ x, x ≠ id → lookupN G2.suuid x = lookupN G.suuid x := by
    intro x hx
    show lookupN (insertN G.suuid id tr.span_id) x = _
    rw [lookupN_insertN_ne _ _ (fun h => hx h.symm)]
  have etu : ∀ x, x ≠ id → lookupN G2.tuuid x = lookupN G.tuuid x := by
    intro x hx
    show lookupN (insertN G.tuuid id tr.trace_id) x = _
    rw [lookupN_insertN_ne _ _ (fun h => hx h.symm)]
  have esu_id : lookupN G2.suuid id = some tr.span_id := lookupN_insertN_self _ _ _
  have etu_id : lookupN G2.tuuid id = some tr.trace_id := lookupN_insertN_self _ _ _
  have enodes_id : lookupN G2.st.nodes id = some tr := lookupN_insertN_self _ _ _
  have hord : ∀ (l : List PSpan),
      (∀ s ∈ l, ∃ t, t ∈ G.tracked ∧ t ∈ G.closedL ∧ lookupN G.suuid t = some s.span_id) →
      l.Pairwise (ordRel G) → l.Pairwise (ordRel G2) := by
    intro l howned hp
    refine pairwise_imp_mem ?_ hp
    intro a b ha hb h ta tb q hta htb hga hgb
    have hane : ta ≠ id := by
      intro hEq
      subst hEq
      rw [esu_id] at hta
      injection hta with hta
      obtain ⟨t', _, _, hsu'⟩ := howned a ha
      have hlt2 := hI.suuid_bound t' a.span_id hsu'
      omega
    have hbne : tb ≠ id := by
      intro hEq
      subst hEq
      rw [esu_id] at htb
      injection htb with htb
      obtain ⟨t', _, _, hsu'⟩ := howned b hb
      have hlt2 := hI.suuid_bound t' b.span_id hsu'
      omega
    rw [esu ta hane] at hta
    rw [esu tb hbne] at htb
    rw [etg ta hane] at hga
    rw [etg tb hbne] at hgb
    exact h ta tb q hta htb hga hgb
  constructor
  case created_chain =>
    intro t
    by_cases ht : t = id
    · subst ht
      simp [hG2, lookupN_insertN_self]
    · show t ∈ G.created ++ [id] ↔ (lookupN (insertN G.st.ancestors id C) t).isSome = true
      rw [lookupN_insertN_ne _ _ (fun h => ht h.symm)]
      simp only [List.mem_append, List.mem_singleton, ht, or_false]
      exact hI.created_chain t
  case chain_created =>
    intro t p hp
    by_cases ht : t = id
    · subst ht
      rw [ech_id] at hp
      exact List.mem_append_left _ (hCcr p hp)
    · rw [ech t ht] at hp
      exact List.mem_append_left _ (hI.chain_created t p hp)
  case chain_self =>
    intro t
    by_cases ht : t = id
    · subst ht
      rw [ech_id]
      intro hmem
      exact hfresh (hCcr _ hmem)
    · rw [ech t ht]
      exact hI.chain_self t
  case chain_head =>
    intro t
    by_cases ht : t = id
    · subst ht
      rw [ech_id]
      rcases hC with rfl | ⟨p, hpc, _, rfl⟩
      · exact Or.inl rfl
      · refine Or.inr ⟨p, ?_⟩
        rw [ech p (fun h => hfresh (h ▸ hpc))]
    · rw [ech t ht]
      rcases hI.chain_head t with hnil | ⟨p, hp⟩
      · exact Or.inl hnil
      · refine Or.inr ⟨p, ?_⟩
        have hpcr : p ∈ G.created := by
          refine hI.chain_created t p ?_
          rw [hp]
          exact List.mem_cons_self _ _
        rw [ech p (fun h => hfresh (h ▸ hpcr))]
        exact hp
  case closed_created =>
    intro t ht
    exact List.mem_append_left _ (hI.closed_created t ht)
  case tracked_created =>
    intro t ht
    rcases List.mem_append.mp ht with ht | ht
    · exact List.mem_append_left _ (hI.tracked_created t ht)
    · exact List.mem_append_right _ ht
  case closed_nodup => exact hI.closed_nodup
  case open_anc =>
    intro s hs hscl p hp
    rcases List.mem_append.mp hs with hs | hs
    · rw [ech s (fun h => hfresh (h ▸ hs))] at hp
      exact hI.open_anc s hs hscl p hp
    · have hsid := List.mem_singleton.mp hs
      subst hsid
      rw [ech_id] at hp
      rcases hC with rfl | ⟨q, hqc, hqcl, rfl⟩
      · cases hp
      · rcases List.mem_cons.mp hp with rfl | hp
        · exact hqcl
        · exact hI.open_anc q hqc hqcl p hp
  case node_iff =>
    intro t
    by_cases ht : t = id
    · subst ht
      rw [enodes_id]
      simp [hidcl]
    · rw [enodes t ht]
      rw [hI.node_iff t]
      constructor
      · rintro ⟨h1, h2⟩
        exact ⟨List.mem_append_left _ h1, h2⟩
      · rintro ⟨h1, h2⟩
        rcases List.mem_append.mp h1 with h1 | h1
        · exact ⟨h1, h2⟩
        · exact absurd (List.mem_singleton.mp h1) ht
  case suuid_dom =>
    intro t
    by_cases ht : t = id
    · subst ht
      rw [esu_id]
      simp
    · rw [esu t ht]
      rw [hI.suuid_dom t]
      constructor
      · intro h1
        exact List.mem_append_left _ h1
      · intro h1
        rcases List.mem_append.mp h1 with h1 | h1
        · exact h1
        · exact absurd (List.mem_singleton.mp h1) ht
  case tuuid_dom =>
    intro t
    by_cases ht : t = id
    · subst ht
      rw [etu_id]
      simp
    · rw [etu t ht]
      rw [hI.tuuid_dom t]
      constructor
      · intro h1
        exact List.mem_append_left _ h1
      · intro h1
        rcases List.mem_append.mp h1 with h1 | h1
        · exact h1
        · exact absurd (List.mem_singleton.mp h1) ht
  case node_uuid =>
    intro t tr0 hl
    by_cases ht : t = id
    · subst ht
      rw [enodes_id] at hl
      injection hl with hl
      subst hl
      exact ⟨esu_id, etu_id⟩
    · rw [enodes t ht] at hl
      rw [esu t ht, etu t ht]
      exact hI.node_uuid t tr0 hl
  case suuid_bound =>
    intro t u hu
    by_cases ht : t = id
    · subst ht
      rw [esu_id] at hu
      injection hu with hu
      subst hu
      exact hsid_lt
    · rw [esu t ht] at hu
      have := hI.suuid_bound t u hu
      show u < next'
      omega
  case tuuid_bound =>
    intro t u hu
    by_cases ht : t = id
    · subst ht
      rw [etu_id] at hu
      injection hu with hu
      subst hu
      exact htid_lt
    · rw [etu t ht] at hu
      have := hI.tuuid_bound t u hu
      show u < next'
      omega
  case suuid_inj =>
    intro t1 t2 u h1 h2
    by_cases ht1 : t1 = id <;> by_cases ht2 : t2 = id
    · rw [ht1, ht2]
    · subst ht1
      rw [esu_id] at h1
      injection h1 with h1
      rw [esu t2 ht2] at h2
      have := hI.suuid_bound t2 u h2
      omega
    · subst ht2
      rw [esu_id] at h2
      injection h2 with h2
      rw [esu t1 ht1] at h1
      have := hI.suuid_bound t1 u h1
      omega
    · rw [esu t1 ht1] at h1
      rw [esu t2 ht2] at h2
      exact hI.suuid_inj t1 t2 u h1 h2
  case tuuid_root_inj =>
    have hfreshRoot : targetOf G2 id = none → tr.trace_id = G.st.nextUuid := by
      intro hrt
      refine htid_fresh ?_
      intro p hph hptr
      rw [targetOf, ech_id, List.find?_eq_none] at hrt
      have hpC : p ∈ C := by
        cases C with
        | nil => cases hph
        | cons q rest =>
          have hqp : q = p := by simpa using hph
          rw [hqp]
          exact List.mem_cons_self _ _
      have := hrt p hpC
      simp only [decide_eq_true_eq] at this
      refine this ?_
      show p ∈ G.tracked ++ [id]
      exact List.mem_append_left _ hptr
    intro r1 r2 u hr1 hr2 h1 h2
    by_cases ht1 : r1 = id <;> by_cases ht2 : r2 = id
    · rw [ht1, ht2]
    · subst ht1
      rw [etu_id] at h1
      injection h1 with h1
      have hfr := hfreshRoot hr1.2
      rw [etu r2 ht2] at h2
      have := hI.tuuid_bound r2 u h2
      omega
    · subst ht2
      rw [etu_id] at h2
      injection h2 with h2
      have hfr := hfreshRoot hr2.2
      rw [etu r1 ht1] at h1
      have := hI.tuuid_bound r1 u h1
      omega
    · rw [etu r1 ht1] at h1
      rw [etu r2 ht2] at h2
      have hr1' : isRoot G r1 := by
        refine ⟨?_, ?_⟩
        · rcases List.mem_append.mp hr1.1 with h | h
          · exact h
          · exact absurd (List.mem_singleton.mp h) ht1
        · rw [← etg r1 ht1]
          exact hr1.2
      have hr2' : isRoot G r2 := by
        refine ⟨?_, ?_⟩
        · rcases List.mem_append.mp hr2.1 with h | h
          · exact h
          · exact absurd (List.mem_singleton.mp h) ht2
        · rw [← etg r2 ht2]
          exact hr2.2
      exact hI.tuuid_root_inj r1 r2 u hr1' hr2' h1 h2
  case tuuid_parent =>
    intro t htr p hph hptr
    by_cases ht : t = id
    · rw [ht] at hph ⊢
      rw [ech_id] at hph
      have hpne : p ≠ id := by
        intro hEq
        subst hEq
        rcases hC with rfl | ⟨q, hqc, _, rfl⟩
        · cases hph
        · injection hph with hph
          exact hfresh (hph ▸ hqc)
      have hptr' : p ∈ G.tracked := by
        rcases List.mem_append.mp hptr with h | h
        · exact h
        · exact absurd (List.mem_singleton.mp h) hpne
      obtain ⟨pt, hplk, htide⟩ := htid_head p hph hptr'
      rw [etu_id, etu p hpne]
      rw [(hI.node_uuid p pt hplk).2, htide]
    · rw [ech t ht] at hph
      have htr' : t ∈ G.tracked := by
        rcases List.mem_append.mp htr with h | h
        · exact h
        · exact absurd (List.mem_singleton.mp h) ht
      have hpne : p ≠ id := by
        intro hEq
        refine hfresh ?_
        rw [← hEq]
        refine hI.chain_created t p ?_
        exact List.mem_of_mem_head? hph
      have hptr' : p ∈ G.tracked := by
        rcases List.mem_append.mp hptr with h | h
        · exact h
        · exact absurd (List.mem_singleton.mp h) hpne
      rw [etu t ht, etu p hpne]
      exact hI.tuuid_parent t htr' p hph hptr'
  case mem_node =>
    intro t0 htr hcl u hu p pt hp
    have ht0 : t0 ≠ id := fun h => hidcl (h ▸ hcl)
    have htr' : t0 ∈ G.tracked := by
      rcases List.mem_append.mp htr with h | h
      · exact h
      · exact absurd (List.mem_singleton.mp h) ht0
    rw [esu t0 ht0] at hu
    rw [eho t0 ht0]
    by_cases hpid : p = id
    · rw [hpid] at hp ⊢
      rw [enodes_id] at hp
      injection hp with hp
      subst hp
      rw [htr_spans]
      have hnotid : holderOf G t0 ≠ some id := by
        intro hEq
        exact hidch t0 (List.mem_of_find?_eq_some hEq)
      rw [if_neg hnotid]
      rfl
    · rw [enodes p hpid] at hp
      exact hI.mem_node t0 htr' hcl u hu p pt hp
  case mem_tx =>
    intro t0 htr hcl u hu tx htx
    have ht0 : t0 ≠ id := fun h => hidcl (h ▸ hcl)
    have htr' : t0 ∈ G.tracked := by
      rcases List.mem_append.mp htr with h | h
      · exact h
      · exact absurd (List.mem_singleton.mp h) ht0
    rw [esu t0 ht0] at hu
    rw [eho t0 ht0, elt t0 ht0]
    have htx' : tx ∈ G.st.sent := htx
    have hcond : (∃ r, lastTrackedOf G t0 = some r ∧
        lookupN G2.tuuid r = some tx.event_id) ↔
        (∃ r, lastTrackedOf G t0 = some r ∧ lookupN G.tuuid r = some tx.event_id) := by
      constructor
      · rintro ⟨r, hr1, hr2⟩
        have hrne : r ≠ id := by
          intro hEq
          refine hidch t0 ?_
          rw [← hEq]
          have : r ∈ (chainOf G t0).filter (fun p => decide (p ∈ G.tracked)) :=
            mem_of_getLast?_eq_some hr1
          exact (List.mem_filter.mp this).1
        rw [etu r hrne] at hr2
        exact ⟨r, hr1, hr2⟩
      · rintro ⟨r, hr1, hr2⟩
        have hrne : r ≠ id := by
          intro hEq
          refine hidch t0 ?_
          rw [← hEq]
          have : r ∈ (chainOf G t0).filter (fun p => decide (p ∈ G.tracked)) :=
            mem_of_getLast?_eq_some hr1
          exact (List.mem_filter.mp this).1
        refine ⟨r, hr1, ?_⟩
        rw [etu r hrne]
        exact hr2
    have hmt := hI.mem_tx t0 htr' hcl u hu tx htx'
    rw [hmt]
    exact if_congr (and_congr Iff.rfl hcond.symm) rfl rfl
  case buf_owned =>
    intro p pt hp s hs
    by_cases hpid : p = id
    · subst hpid
      rw [enodes_id] at hp
      injection hp with hp
      subst hp
      rw [htr_spans] at hs
      cases hs
    · rw [enodes p hpid] at hp
      obtain ⟨t', h1, h2, h3⟩ := hI.buf_owned p pt hp s hs
      have ht'ne : t' ≠ id := fun h => hidcl (h ▸ h2)
      refine ⟨t', List.mem_append_left _ h1, h2, ?_⟩
      rw [esu t' ht'ne]
      exact h3
  case tx_owned =>
    intro tx htx s hs
    obtain ⟨t', h1, h2, h3⟩ := hI.tx_owned tx htx s hs
    have ht'ne : t' ≠ id := fun h => hidcl (h ▸ h2)
    refine ⟨t', List.mem_append_left _ h1, h2, ?_⟩
    rw [esu t' ht'ne]
    exact h3
  case sent_count =>
    intro r hr u hu
    by_cases ht : r = id
    · rw [ht] at hu hr ⊢
      rw [etu_id] at hu
      injection hu with hu
      have hfr : tr.trace_id = G.st.nextUuid := by
        refine htid_fresh ?_
        intro p hph hptr
        have hrt := hr.2
        rw [targetOf, ech_id, List.find?_eq_none] at hrt
        have hpC : p ∈ C := by
          cases C with
          | nil => cases hph
          | cons q rest =>
            have hqp : q = p := by simpa using hph
            rw [hqp]
            exact List.mem_cons_self _ _
        have := hrt p hpC
        simp only [decide_eq_true_eq] at this
        exact this (List.mem_append_left _ hptr)
      have hnone : (G.st.sent.filter (fun tx => decide (tx.event_id = u))) = [] := by
        refine List.filter_eq_nil_iff.mpr ?_
        intro tx htx
        obtain ⟨r', _, _, hrt'⟩ := hI.sent_owned tx htx
        have := hI.tuuid_bound r' tx.event_id hrt'
        simp only [decide_eq_true_eq]
        omega
      show (G.st.sent.filter _).length = if id ∈ G.closedL then 1 else 0
      rw [hnone, if_neg hidcl]
      rfl
    · rw [etu r ht] at hu
      have hr' : isRoot G r := by
        refine ⟨?_, ?_⟩
        · rcases List.mem_append.mp hr.1 with h | h
          · exact h
          · exact absurd (List.mem_singleton.mp h) ht
        · rw [← etg r ht]
          exact hr.2
      exact hI.sent_count r hr' u hu
  case sent_owned =>
    intro tx htx
    obtain ⟨r, hr, hrc, hrt⟩ := hI.sent_owned tx htx
    have hrne : r ≠ id := fun h => hidcl (h ▸ hrc)
    refine ⟨r, ⟨List.mem_append_left _ hr.1, ?_⟩, hrc, ?_⟩
    · rw [etg r hrne]
      exact hr.2
    · rw [etu r hrne]
      exact hrt
  case ord_node =>
    intro p pt hp
    by_cases hpid : p = id
    · subst hpid
      rw [enodes_id] at hp
      injection hp with hp
      subst hp
      rw [htr_spans]
      exact List.Pairwise.nil
    · rw [enodes p hpid] at hp
      exact hord pt.spans (fun s hs => hI.buf_owned p pt hp s hs) (hI.ord_node p pt hp)
  case ord_tx =>
    intro tx htx
    exact hord tx.spans (fun s hs => hI.tx_owned tx htx s hs) (hI.ord_tx tx htx)

/-- A duplicate-free list splits uniquely at an element. -/
theorem split_unique {α : Type} (a : α) :
    ∀ (p1 s1 p2 s2 : List α), (p1 ++ a :: s1).Nodup →
      p1 ++ a :: s1 = p2 ++ a :: s2 → p1 = p2 ∧ s1 = s2 := by
  intro p1
  induction p1 with
  | nil =>
    intro s1 p2 s2 hnd hEq
    cases p2 with
    | nil =>
      simp only [List.nil_append, List.cons.injEq] at hEq
      exact ⟨rfl, hEq.2⟩
    | cons b p2' =>
      simp only [List.nil_append, List.cons_append, List.cons.injEq] at hEq
      obtain ⟨hb, hs⟩ := hEq
      exfalso
      have hmem : a ∈ s1 := by
        rw [hs]
        exact List.mem_append_right _ (List.mem_cons_self _ _)
      simp only [List.nil_append] at hnd
      exact (List.nodup_cons.mp hnd).1 hmem
  | cons c p1' ih =>
    intro s1 p2 s2 hnd hEq
    cases p2 with
    | nil =>
      simp only [List.nil_append, List.cons_append, List.cons.injEq] at hEq
      obtain ⟨hb, hs⟩ := hEq
      exfalso
      rw [List.cons_append] at hnd
      have hnotin := (List.nodup_cons.mp hnd).1
      rw [hb] at hnotin
      exact hnotin (List.mem_append_right _ (List.mem_cons_self _ _))
    | cons d p2' =>
      rw [List.cons_append, List.cons_append] at hEq
      injection hEq with h1 h2
      rw [List.cons_append] at hnd
      obtain ⟨hp, hs⟩ := ih s1 p2' s2 (List.nodup_cons.mp hnd).2 h2
      exact ⟨by rw [h1, hp], hs⟩

/-- Skipping a prefix on which the predicate fails. -/
theorem find?_prefix_false {α : Type} {p : α → Bool} (pre l : List α)
    (h : ∀ x ∈ pre, p x = false) : (pre ++ l).find? p = l.find? p := by
  induction pre with
  | nil => rfl
  | cons hd tl ih =>
    rw [List.cons_append, List.find?_cons_of_neg _ (by simp [h hd (by simp)])]
    exact ih (fun x hx => h x (List.mem_cons_of_mem _ hx))

/-- Switching to a predicate differing only at `id`: a hit elsewhere is
stable. -/
theorem find?_switch_some {pr pr' : Nat → Bool} {id q : Nat} {c : List Nat}
    (h_ne : ∀ x, x ≠ id → pr' x = pr x) (hid : pr id = true)
    (hq : c.find? pr = some q) (hqne : q ≠ id) : c.find? pr' = some q := by
  obtain ⟨pre, rest, rfl, hpre, hpq⟩ := find?_eq_some_split hq
  refine find?_split_eq_some pre rest q ?_ ?_
  · intro x hx
    have hxne : x ≠ id := by
      intro hEq
      have h2 := hpre x hx
      rw [hEq, hid] at h2
      cases h2
    rw [h_ne x hxne]
    exact hpre x hx
  · rw [h_ne q hqne]
    exact hpq

/-- Switching to a predicate differing only at `id` when the hit was
`id` itself: the search continues past `id`. -/
theorem find?_switch_id {pr pr' : Nat → Bool} {id : Nat} {c : List Nat}
    (h_id : pr' id = false) (h_ne : ∀ x, x ≠ id → pr' x = pr x)
    (hq : c.find? pr = some id) :
    ∃ pre rest, c = pre ++ id :: rest ∧ (∀ x ∈ pre, pr x = false) ∧
      c.find? pr' = rest.find? pr' := by
  obtain ⟨pre, rest, rfl, hpre, hpq⟩ := find?_eq_some_split hq
  refine ⟨pre, rest, rfl, hpre, ?_⟩
  have hpre' : ∀ x ∈ pre, pr' x = false := by
    intro x hx
    have hxne : x ≠ id := by
      intro hEq
      have h2 := hpre x hx
      rw [hEq] at h2
      rw [h2] at hpq
      cases hpq
    rw [h_ne x hxne]
    exact hpre x hx
  rw [find?_prefix_false pre _ hpre', List.find?_cons_of_neg _ (by simp [h_id])]

/-- Switching to a predicate differing only at `id` when there was no
hit. -/
theorem find?_switch_none {pr pr' : Nat → Bool} {id : Nat} {c : List Nat}
    (h_ne : ∀ x, x ≠ id → pr' x = pr x) (hid : pr id = true)
    (hq : c.find? pr = none) : c.find? pr' = none := by
  rw [List.find?_eq_none] at hq ⊢
  intro x hx
  have hxne : x ≠ id := by
    intro hEq
    exact hq x hx (by rw [hEq]; exact hid)
  rw [h_ne x hxne]
  exact fun h => hq x hx h

/-- The holder of a span is determined by its nearest tracked ancestor:
untracked chain elements never own nodes, so the node search skips
straight to the target and continues along the target's own chain. -/
theorem spanInv_target_holder {G : GState} (hI : SpanInv G) (t q : Nat)
    (h : targetOf G t = some q) :
    holderOf G t =
      if (lookupN G.st.nodes q).isSome = true then some q
      else firstNode G.st.nodes (chainOf G q) := by
  obtain ⟨pre, rest, hsplit, hpre, hpq⟩ := find?_eq_some_split h
  have hqmem : q ∈ chainOf G t := by
    rw [hsplit]
    exact List.mem_append_right _ (List.mem_cons_self _ _)
  obtain ⟨pre2, hsplit2, _, _⟩ := inv_chain_split hI t q hqmem
  have hnd : (chainOf G t).Nodup := inv_chain_nodup hI t
  obtain ⟨hpe, hre⟩ := split_unique q pre rest pre2 (chainOf G q)
    (by rw [← hsplit]; exact hnd) (by rw [← hsplit, ← hsplit2])
  have hpre_nonode : ∀ x ∈ pre, (lookupN G.st.nodes x).isSome = false := by
    intro x hx
    cases hn : (lookupN G.st.nodes x).isSome with
    | false => rfl
    | true =>
      have := ((hI.node_iff x).mp hn).1
      have h2 := hpre x hx
      rw [decide_eq_false_iff_not] at h2
      exact absurd this h2
  rw [holderOf, firstNode, hsplit, hre]
  rw [find?_prefix_false pre _ (by intro x hx; simpa using hpre_nonode x hx)]
  cases hn : (lookupN G.st.nodes q).isSome with
  | true =>
    rw [List.find?_cons_of_pos _ (by simpa using hn)]
    simp
  | false =>
    rw [List.find?_cons_of_neg _ (by simp [hn])]
    simp [firstNode]

/-- Two spans attaching to the same tracked ancestor have the same
holder. -/
theorem spanInv_holder_det {G : GState} (hI : SpanInv G) (t1 t2 q : Nat)
    (h1 : targetOf G t1 = some q) (h2 : targetOf G t2 = some q) :
    holderOf G t1 = holderOf G t2 := by
  rw [spanInv_target_holder hI t1 q h1, spanInv_target_holder hI t2 q h2]

/-- The farthest tracked ancestor of any span is a trace root. -/
theorem spanInv_lastTracked_root {G : GState} (hI : SpanInv G) (t r : Nat)
    (h : lastTrackedOf G t = some r) : isRoot G r ∧ r ∈ chainOf G t := by
  have hrmem : r ∈ (chainOf G t).filter (fun p => decide (p ∈ G.tracked)) :=
    mem_of_getLast?_eq_some h
  have hrch : r ∈ chainOf G t := (List.mem_filter.mp hrmem).1
  have hrtr : r ∈ G.tracked := by
    have := (List.mem_filter.mp hrmem).2
    simpa using this
  obtain ⟨pre, hsplit, _, hnotin⟩ := inv_chain_split hI t r hrch
  refine ⟨⟨hrtr, ?_⟩, hrch⟩
  have hfe : (chainOf G r).filter (fun p => decide (p ∈ G.tracked)) = [] := by
    by_contra hne
    have hlast := h
    rw [lastTrackedOf, hsplit, List.filter_append] at hlast
    rw [List.filter_cons_of_pos (by simpa using hrtr)] at hlast
    rw [List.getLast?_append_cons] at hlast
    cases hfl : (chainOf G r).filter (fun p => decide (p ∈ G.tracked)) with
    | nil => exact hne hfl
    | cons y ys =>
      rw [hfl] at hlast
      have : r ∈ y :: ys := by
        refine mem_of_getLast?_eq_some ?_
        rw [← hlast]
        rfl
      rw [← hfl] at this
      exact hnotin (List.mem_filter.mp this).1
  rw [targetOf, List.find?_eq_none]
  intro x hx hpx
  have : x ∈ (chainOf G r).filter (fun p => decide (p ∈ G.tracked)) :=
    List.mem_filter.mpr ⟨hx, hpx⟩
  rw [hfe] at this
  cases this

/-- The UUID of a still-open tracked span occurs in no buffer. -/
theorem spanInv_unclosed_absent {G : GState} (hI : SpanInv G) (t u : Nat)
    (hsu : lookupN G.suuid t = some u) (hncl : t ∉ G.closedL) :
    (∀ p pt, lookupN G.st.nodes p = some pt → countU u pt.spans = 0) ∧
    (∀ tx ∈ G.st.sent, countU u tx.spans = 0) := by
  constructor
  · intro p pt hp
    rw [countU_eq_zero_iff]
    intro s hs hEq
    obtain ⟨t', _, hcl', hsu'⟩ := hI.buf_owned p pt hp s hs
    rw [hEq] at hsu'
    exact hncl (hI.suuid_inj t t' u hsu hsu' ▸ hcl')
  · intro tx htx
    rw [countU_eq_zero_iff]
    intro s hs hEq
    obtain ⟨t', _, hcl', hsu'⟩ := hI.tx_owned tx htx s hs
    rw [hEq] at hsu'
    exact hncl (hI.suuid_inj t t' u hsu hsu' ▸ hcl')

/-- Shape of a successful or failed ancestor attachment, with the
failure of every earlier chain element recorded. -/
theorem attachToAncestor_split (nodes : List (Nat × Trace)) (chain : List Nat)
    (spans : List PSpan) (sd : PSpan) :
    (attachToAncestor nodes chain spans sd = none ∧
      ∀ q ∈ chain, lookupN nodes q = none) ∨
    ∃ pre p pt rest, chain = pre ++ p :: rest ∧
      (∀ q ∈ pre, lookupN nodes q = none) ∧
      lookupN nodes p = some pt ∧
      attachToAncestor nodes chain spans sd =
        some (insertN nodes p
          { pt with spans :=
              pt.spans ++ spans ++ [{ sd with parent_span_id := some pt.span_id }] }) := by
  induction chain with
  | nil => exact Or.inl ⟨rfl, fun q hq => absurd hq (List.not_mem_nil q)⟩
  | cons p rest ih =>
    cases hl : lookupN nodes p with
    | some pt =>
      refine Or.inr ⟨[], p, pt, rest, rfl, ?_, hl, by simp [attachToAncestor, hl]⟩
      intro q hq
      cases hq
    | none =>
      rcases ih with ⟨hnone, hall⟩ | ⟨pre, p', pt, rest', hsplit, hpre, hpl, hpe⟩
      · refine Or.inl ⟨by simp [attachToAncestor, hl, hnone], ?_⟩
        intro q hq
        rcases List.mem_cons.mp hq with rfl | hq
        · exact hl
        · exact hall q hq
      · refine Or.inr ⟨p :: pre, p', pt, rest', by rw [hsplit, List.cons_append], ?_,
          hpl, by simp [attachToAncestor, hl, hpe]⟩
        intro q hq
        rcases List.mem_cons.mp hq with rfl | hq
        · exact hl
        · exact hpre q hq

/-- Closing a span without a node only records the close in the ghost
close order; the machine state is untouched and the invariant is
preserved. -/
theorem spanInv_close_untracked (G : GState) (id now : Nat)
    (hidcr : id ∈ G.created) (hidncl : id ∉ G.closedL)
    (hdesc : ∀ s ∈ G.created, s ∉ G.closedL → s ≠ id → id ∉ chainOf G s)
    (hl : lookupN G.st.nodes id = none) (hI : SpanInv G) :
    SpanInv { G with closedL := G.closedL ++ [id], clock := now } := by
  have hidnotr : id ∉ G.tracked := by
    intro htr
    have := (hI.node_iff id).mpr ⟨htr, hidncl⟩
    rw [hl] at this
    cases this
  have hclmem : ∀ t, t ≠ id → (t ∈ G.closedL ++ [id] ↔ t ∈ G.closedL) := by
    intro t ht
    simp [ht]
  have htrne : ∀ t, t ∈ G.tracked → t ≠ id := fun t htr hEq => hidnotr (hEq ▸ htr)
  have hordt : ∀ (l : List PSpan),
      (∀ s ∈ l, ∃ t', t' ∈ G.tracked ∧ t' ∈ G.closedL ∧
        lookupN G.suuid t' = some s.span_id) →
      l.Pairwise (ordRel G) →
      l.Pairwise (ordRel { G with closedL := G.closedL ++ [id], clock := now }) := by
    intro l howned hp
    refine pairwise_imp_mem ?_ hp
    intro a b ha hb h ta tb q hta htb hga hgb
    have hta' : lookupN G.suuid ta = some a.span_id := hta
    have htb' : lookupN G.suuid tb = some b.span_id := htb
    obtain ⟨ta', _, hcla, hsua⟩ := howned a ha
    obtain ⟨tb', _, hclb, hsub⟩ := howned b hb
    have hta2 : ta = ta' := hI.suuid_inj ta ta' a.span_id hta' hsua
    have htb2 : tb = tb' := hI.suuid_inj tb tb' b.span_id htb' hsub
    show (G.closedL ++ [id]).indexOf ta < (G.closedL ++ [id]).indexOf tb
    rw [List.indexOf_append_of_mem (hta2 ▸ hcla),
      List.indexOf_append_of_mem (htb2 ▸ hclb)]
    exact h ta tb q hta' htb' hga hgb
  refine ⟨hI.created_chain, hI.chain_created, hI.chain_self, hI.chain_head, ?_,
    hI.tracked_created, ?_, ?_, ?_, hI.suuid_dom, hI.tuuid_dom, hI.node_uuid,
    hI.suuid_bound, hI.tuuid_bound, hI.suuid_inj, hI.tuuid_root_inj,
    hI.tuuid_parent, ?_, ?_, ?_, ?_, ?_, ?_, ?_, ?_⟩
  · intro t ht
    rcases List.mem_append.mp ht with ht | ht
    · exact hI.closed_created t ht
    · rw [List.mem_singleton.mp ht]
      exact hidcr
  · refine List.Nodup.append hI.closed_nodup (List.nodup_singleton id) ?_
    intro a ha hb
    rw [List.mem_singleton.mp hb] at ha
    exact hidncl ha
  · intro s hs hso p hp
    have hso1 : s ∉ G.closedL := fun h => hso (List.mem_append_left _ h)
    have hsne : s ≠ id := fun h => hso (h ▸ List.mem_append_right _ (by simp))
    have hpold : p ∉ G.closedL := hI.open_anc s hs hso1 p hp
    have hpne : p ≠ id := by
      intro hEq
      exact hdesc s hs hso1 hsne (hEq ▸ hp)
    rw [hclmem p hpne]
    exact hpold
  · intro t
    by_cases ht : t = id
    · subst ht
      rw [hl]
      constructor
      · intro h; cases h
      · rintro ⟨htr, _⟩
        exact absurd htr hidnotr
    · rw [hI.node_iff t]
      constructor
      · rintro ⟨h1, h2⟩
        exact ⟨h1, fun h => h2 ((hclmem t ht).mp h)⟩
      · rintro ⟨h1, h2⟩
        exact ⟨h1, fun h => h2 ((hclmem t ht).mpr h)⟩
  · intro t0 htr hcl u hu p pt hp
    have hcl' : t0 ∈ G.closedL := (hclmem t0 (htrne t0 htr)).mp hcl
    exact hI.mem_node t0 htr hcl' u hu p pt hp
  · intro t0 htr hcl u hu tx htx
    have hcl' : t0 ∈ G.closedL := (hclmem t0 (htrne t0 htr)).mp hcl
    exact hI.mem_tx t0 htr hcl' u hu tx htx
  · intro p pt hp s hs
    obtain ⟨t', h1, h2, h3⟩ := hI.buf_owned p pt hp s hs
    exact ⟨t', h1, List.mem_append_left _ h2, h3⟩
  · intro tx htx s hs
    obtain ⟨t', h1, h2, h3⟩ := hI.tx_owned tx htx s hs
    exact ⟨t', h1, List.mem_append_left _ h2, h3⟩
  · intro r hr u hu
    have hrne : r ≠ id := htrne r hr.1
    rw [if_congr (hclmem r hrne) rfl rfl]
    exact hI.sent_count r hr u hu
  · intro tx htx
    obtain ⟨r, h1, h2, h3⟩ := hI.sent_owned tx htx
    exact ⟨r, h1, List.mem_append_left _ h2, h3⟩
  · intro p pt hp
    exact hordt pt.spans (fun s hs => hI.buf_owned p pt hp s hs) (hI.ord_node p pt hp)
  · intro tx htx
    exact hordt tx.spans (fun s hs => hI.tx_owned tx htx s hs) (hI.ord_tx tx htx)

/-- Closing a tracked span with no live ancestor: the node is consumed
and a root transaction carrying the accumulated child summaries is
handed to the sink.  The invariant is preserved. -/
theorem spanInv_close_emit (G : GState) (id now : Nat) (trace : Trace) (nm0 : String)
    (hidcr : id ∈ G.created) (hidncl : id ∉ G.closedL)
    (hdesc : ∀ s ∈ G.created, s ∉ G.closedL → s ≠ id → id ∉ chainOf G s)
    (hl : lookupN G.st.nodes id = some trace)
    (hallnone : ∀ q ∈ chainOf G id, lookupN (eraseN G.st.nodes id) q = none)
    (hI : SpanInv G) :
    SpanInv
      { G with
        st :=
          { G.st with
            nodes := eraseN G.st.nodes id
            sent := G.st.sent ++
              [{ event_id := trace.trace_id, name := some nm0,
                 start_timestamp := trace.first, timestamp := some trace.last_sys,
                 spans := trace.spans }] }
        closedL := G.closedL ++ [id]
        clock := now } := by
  set tx0 : Transaction :=
    { event_id := trace.trace_id, name := some nm0, start_timestamp := trace.first,
      timestamp := some trace.last_sys, spans := trace.spans } with htx0
  set G2 : GState :=
    { G with
      st := { G.st with nodes := eraseN G.st.nodes id, sent := G.st.sent ++ [tx0] }
      closedL := G.closedL ++ [id]
      clock := now } with hG2
  have hidtr : id ∈ G.tracked := ((hI.node_iff id).mp (by rw [hl]; rfl)).1
  have husid : lookupN G.suuid id = some trace.span_id := (hI.node_uuid id trace hl).1
  have hutid : lookupN G.tuuid id = some trace.trace_id := (hI.node_uuid id trace hl).2
  have hChainOpen := hI.open_anc id hidcr hidncl
  have hCidnone : ∀ q ∈ chainOf G id, lookupN G.st.nodes q = none := by
    intro q hq
    have hqne : id ≠ q := fun h => hI.chain_self id (h ▸ hq)
    have h2 := hallnone q hq
    rwa [lookupN_eraseN_ne _ hqne] at h2
  have hCiduntr : ∀ q ∈ chainOf G id, q ∉ G.tracked := by
    intro q hq htr
    have hqop : q ∉ G.closedL := hChainOpen q hq
    have h2 := (hI.node_iff q).mpr ⟨htr, hqop⟩
    rw [hCidnone q hq] at h2
    cases h2
  have hidroot : isRoot G id := by
    refine ⟨hidtr, ?_⟩
    rw [targetOf, List.find?_eq_none]
    intro x hx hpx
    rw [decide_eq_true_eq] at hpx
    exact hCiduntr x hx hpx
  have hfiltid : (chainOf G id).filter (fun p => decide (p ∈ G.tracked)) = [] := by
    rw [List.filter_eq_nil_iff]
    intro x hx hpx
    rw [decide_eq_true_eq] at hpx
    exact hCiduntr x hx hpx
  have hlastid : lastTrackedOf G id = none := by
    rw [lastTrackedOf, hfiltid]
    rfl
  have h_prid : ((lookupN G.st.nodes id).isSome) = true := by rw [hl]; rfl
  have h_pr2id : ((lookupN (eraseN G.st.nodes id) id).isSome) = false := by
    rw [lookupN_eraseN_self]
    rfl
  have h_prne : ∀ x, x ≠ id →
      ((lookupN (eraseN G.st.nodes id) x).isSome) = ((lookupN G.st.nodes x).isSome) := by
    intro x hx
    rw [lookupN_eraseN_ne _ (fun h => hx h.symm)]
  have hfind2id : (chainOf G id).find?
      (fun p => (lookupN (eraseN G.st.nodes id) p).isSome) = none := by
    rw [List.find?_eq_none]
    intro x hx hpx
    rw [hallnone x hx] at hpx
    cases hpx
  have hHold_id : holderOf G2 id = none := by
    show (chainOf G id).find? _ = none
    exact hfind2id
  have hHold_someid : ∀ t0, holderOf G t0 = some id → holderOf G2 t0 = none := by
    intro t0 h
    obtain ⟨pre, rest, hsp, hpre, hfind⟩ :=
      @find?_switch_id (fun x => (lookupN G.st.nodes x).isSome)
        (fun x => (lookupN (eraseN G.st.nodes id) x).isSome) id (chainOf G t0)
        h_pr2id h_prne h
    have hmem : id ∈ chainOf G t0 := by
      rw [hsp]
      exact List.mem_append_right _ (List.mem_cons_self _ _)
    obtain ⟨pre2, hsp2, _, _⟩ := inv_chain_split hI t0 id hmem
    obtain ⟨_, hre⟩ := split_unique id pre rest pre2 (chainOf G id)
      (by rw [← hsp]; exact inv_chain_nodup hI t0) (by rw [← hsp, ← hsp2])
    show (chainOf G t0).find? _ = none
    rw [hfind, hre]
    exact hfind2id
  have hHold_some : ∀ t0 q, q ≠ id → holderOf G t0 = some q → holderOf G2 t0 = some q :=
    fun t0 q hq h => find?_switch_some h_prne h_prid h hq
  have hHold_none : ∀ t0, holderOf G t0 = none → holderOf G2 t0 = none :=
    fun t0 h => find?_switch_none h_prne h_prid h
  have hlastH : ∀ t0, holderOf G t0 = some id → lastTrackedOf G t0 = some id := by
    intro t0 h
    have hmem : id ∈ chainOf G t0 := List.mem_of_find?_eq_some h
    obtain ⟨pre2, hsp2, _, _⟩ := inv_chain_split hI t0 id hmem
    rw [lastTrackedOf, hsp2, List.filter_append,
      List.filter_cons_of_pos (by simpa using hidtr), List.getLast?_append_cons, hfiltid]
    rfl
  have habsent := spanInv_unclosed_absent hI id trace.span_id husid hidncl
  have hev_old : ∀ tx ∈ G.st.sent, tx.event_id ≠ trace.trace_id := by
    intro tx htx hEq
    obtain ⟨r', hr', hrc', hrt'⟩ := hI.sent_owned tx htx
    rw [hEq] at hrt'
    have hre : r' = id := hI.tuuid_root_inj r' id trace.trace_id hr' hidroot hrt' hutid
    exact hidncl (hre ▸ hrc')
  have hclmem : ∀ t, t ≠ id → (t ∈ G.closedL ++ [id] ↔ t ∈ G.closedL) := by
    intro t ht
    simp [ht]
  have hordt : ∀ (l : List PSpan),
      (∀ s ∈ l, ∃ t', t' ∈ G.tracked ∧ t' ∈ G.closedL ∧
        lookupN G.suuid t' = some s.span_id) →
      l.Pairwise (ordRel G) → l.Pairwise (ordRel G2) := by
    intro l howned hp
    refine pairwise_imp_mem ?_ hp
    intro a b ha hb h ta tb q hta htb hga hgb
    have hta' : lookupN G.suuid ta = some a.span_id := hta
    have htb' : lookupN G.suuid tb = some b.span_id := htb
    obtain ⟨ta', _, hcla, hsua⟩ := howned a ha
    obtain ⟨tb', _, hclb, hsub⟩ := howned b hb
    have hta2 : ta = ta' := hI.suuid_inj ta ta' a.span_id hta' hsua
    have htb2 : tb = tb' := hI.suuid_inj tb tb' b.span_id htb' hsub
    show (G.closedL ++ [id]).indexOf ta < (G.closedL ++ [id]).indexOf tb
    rw [List.indexOf_append_of_mem (hta2 ▸ hcla),
      List.indexOf_append_of_mem (htb2 ▸ hclb)]
    exact h ta tb q hta' htb' hga hgb
  refine ⟨hI.created_chain, hI.chain_created, hI.chain_self, hI.chain_head, ?_,
    hI.tracked_created, ?_, ?_, ?_, hI.suuid_dom, hI.tuuid_dom, ?_,
    hI.suuid_bound, hI.tuuid_bound, hI.suuid_inj, hI.tuuid_root_inj,
    hI.tuuid_parent, ?_, ?_, ?_, ?_, ?_, ?_, ?_, ?_⟩
  · intro t ht
    rcases List.mem_append.mp ht with ht | ht
    · exact hI.closed_created t ht
    · rw [List.mem_singleton.mp ht]
      exact hidcr
  · refine List.Nodup.append hI.closed_nodup (List.nodup_singleton id) ?_
    intro a ha hb
    rw [List.mem_singleton.mp hb] at ha
    exact hidncl ha
  · intro s hs hso p hp
    have hso1 : s ∉ G.closedL := fun h => hso (List.mem_append_left _ h)
    have hsne : s ≠ id := fun h => hso (h ▸ List.mem_append_right _ (by simp))
    have hpold : p ∉ G.closedL := hI.open_anc s hs hso1 p hp
    have hpne : p ≠ id := by
      intro hEq
      exact hdesc s hs hso1 hsne (hEq ▸ hp)
    rw [hclmem p hpne]
    exact hpold
  · intro t
    by_cases ht : t = id
    · rw [ht]
      show (lookupN (eraseN G.st.nodes id) id).isSome = true ↔ _
      rw [lookupN_eraseN_self]
      constructor
      · intro h; cases h
      · rintro ⟨_, h2⟩
        exact absurd (List.mem_append_right _ (by simp)) h2
    · show (lookupN (eraseN G.st.nodes id) t).isSome = true ↔ _
      rw [lookupN_eraseN_ne _ (fun h => ht h.symm), hI.node_iff t]
      constructor
      · rintro ⟨h1, h2⟩
        exact ⟨h1, fun h => h2 ((hclmem t ht).mp h)⟩
      · rintro ⟨h1, h2⟩
        exact ⟨h1, fun h => h2 ((hclmem t ht).mpr h)⟩
  · intro t tr0 hlk
    replace hlk : lookupN (eraseN G.st.nodes id) t = some tr0 := hlk
    by_cases ht : t = id
    · rw [ht, lookupN_eraseN_self] at hlk
      cases hlk
    · rw [lookupN_eraseN_ne _ (fun h => ht h.symm)] at hlk
      exact hI.node_uuid t tr0 hlk
  · intro t0 htr hcl u hu p' pt' hp'
    replace hp' : lookupN (eraseN G.st.nodes id) p' = some pt' := hp'
    have hp'ne : p' ≠ id := by
      intro h
      rw [h, lookupN_eraseN_self] at hp'
      cases hp'
    rw [lookupN_eraseN_ne _ (fun h => hp'ne h.symm)] at hp'
    by_cases ht0 : t0 = id
    · rw [ht0] at hu ⊢
      rw [hHold_id]
      rw [if_neg (by intro h; cases h)]
      have huv : u = trace.span_id := by
        rw [husid] at hu
        injection hu with hu
        rw [hu]
      rw [huv]
      exact habsent.1 p' pt' hp'
    · have hcl' : t0 ∈ G.closedL := (hclmem t0 ht0).mp hcl
      have hcnt := hI.mem_node t0 htr hcl' u hu p' pt' hp'
      cases hh : holderOf G t0 with
      | none =>
        rw [hHold_none t0 hh]
        rw [if_neg (by intro h; cases h)]
        rw [hh] at hcnt
        rw [if_neg (by intro h; cases h)] at hcnt
        exact hcnt
      | some q =>
        by_cases hq : q = id
        · rw [hq] at hh
          rw [hHold_someid t0 hh]
          rw [if_neg (by intro h; cases h)]
          rw [hh] at hcnt
          rw [if_neg (by intro h; injection h with h; exact hp'ne h.symm)] at hcnt
          exact hcnt
        · rw [hHold_some t0 q hq hh]
          rw [hh] at hcnt
          exact hcnt
  · intro t0 htr hcl u hu tx htx
    replace htx : tx ∈ G.st.sent ++ [tx0] := htx
    rcases List.mem_append.mp htx with htxo | htxn
    · by_cases ht0 : t0 = id
      · rw [ht0] at hu ⊢
        have huv : u = trace.span_id := by
          rw [husid] at hu
          injection hu with hu
          rw [hu]
        have hcondF : ¬(holderOf G2 id = none ∧
            ∃ r, lastTrackedOf G2 id = some r ∧ lookupN G2.tuuid r = some tx.event_id) := by
          rintro ⟨_, r, hr, _⟩
          rw [show lastTrackedOf G2 id = lastTrackedOf G id from rfl, hlastid] at hr
          cases hr
        rw [if_neg hcondF, huv]
        exact habsent.2 tx htxo
      · have hcl' : t0 ∈ G.closedL := (hclmem t0 ht0).mp hcl
        have hmt := hI.mem_tx t0 htr hcl' u hu tx htxo
        cases hh : holderOf G t0 with
        | none =>
          have h2 : holderOf G2 t0 = none := hHold_none t0 hh
          rw [hh] at hmt
          have hiff : (holderOf G2 t0 = none ∧
              ∃ r, lastTrackedOf G2 t0 = some r ∧ lookupN G2.tuuid r = some tx.event_id) ↔
              ((none : Option Nat) = none ∧
              ∃ r, lastTrackedOf G t0 = some r ∧ lookupN G.tuuid r = some tx.event_id) := by
            rw [h2]
            exact Iff.rfl
          rw [if_congr hiff rfl rfl]
          exact hmt
        | some q =>
          by_cases hq : q = id
          · rw [hq] at hh
            have h2 : holderOf G2 t0 = none := hHold_someid t0 hh
            rw [hh] at hmt
            rw [if_neg (by rintro ⟨h3, _⟩; cases h3)] at hmt
            have hcondF : ¬(holderOf G2 t0 = none ∧
                ∃ r, lastTrackedOf G2 t0 = some r ∧ lookupN G2.tuuid r = some tx.event_id) := by
              rintro ⟨_, r, hr, hrt⟩
              rw [show lastTrackedOf G2 t0 = lastTrackedOf G t0 from rfl,
                hlastH t0 hh] at hr
              injection hr with hr
              have hrid : r = id := hr.symm
              rw [hrid] at hrt
              have hrt' : lookupN G.tuuid id = some tx.event_id := hrt
              rw [hutid] at hrt'
              injection hrt' with hrt'
              exact hev_old tx htxo hrt'.symm
            rw [if_neg hcondF]
            exact hmt
          · have h2 : holderOf G2 t0 = some q := hHold_some t0 q hq hh
            rw [hh] at hmt
            rw [if_neg (by rintro ⟨h3, _⟩; cases h3)] at hmt
            rw [if_neg (by rintro ⟨h3, _⟩; rw [h2] at h3; cases h3)]
            exact hmt
    · have htxeq : tx = tx0 := List.mem_singleton.mp htxn
      rw [htxeq]
      by_cases ht0 : t0 = id
      · rw [ht0] at hu ⊢
        have huv : u = trace.span_id := by
          rw [husid] at hu
          injection hu with hu
          rw [hu]
        have hcondF : ¬(holderOf G2 id = none ∧
            ∃ r, lastTrackedOf G2 id = some r ∧ lookupN G2.tuuid r = some tx0.event_id) := by
          rintro ⟨_, r, hr, _⟩
          rw [show lastTrackedOf G2 id = lastTrackedOf G id from rfl, hlastid] at hr
          cases hr
        rw [if_neg hcondF, huv]
        show countU trace.span_id trace.spans = 0
        exact habsent.1 id trace hl
      · have hcl' : t0 ∈ G.closedL := (hclmem t0 ht0).mp hcl
        have hcnt := hI.mem_node t0 htr hcl' u hu id trace hl
        cases hh : holderOf G t0 with
        | none =>
          rw [hh] at hcnt
          rw [if_neg (by intro h3; cases h3)] at hcnt
          have hcondF : ¬(holderOf G2 t0 = none ∧
              ∃ r, lastTrackedOf G2 t0 = some r ∧ lookupN G2.tuuid r = some tx0.event_id) := by
            rintro ⟨_, r, hr, hrt⟩
            have hr' : lastTrackedOf G t0 = some r := hr
            obtain ⟨hrroot, hrch⟩ := spanInv_lastTracked_root hI t0 r hr'
            have hrt' : lookupN G.tuuid r = some trace.trace_id := hrt
            have hrid : r = id :=
              hI.tuuid_root_inj r id trace.trace_id hrroot hidroot hrt' hutid
            rw [hrid] at hrch
            have hfe : (chainOf G t0).find?
                (fun p => (lookupN G.st.nodes p).isSome) = none := hh
            have hff := List.find?_eq_none.mp hfe id hrch
            rw [h_prid] at hff
            exact hff rfl
          rw [if_neg hcondF]
          show countU u trace.spans = 0
          exact hcnt
        | some q =>
          by_cases hq : q = id
          · rw [hq] at hh
            rw [hh] at hcnt
            rw [if_pos rfl] at hcnt
            have hcondT : holderOf G2 t0 = none ∧
                ∃ r, lastTrackedOf G2 t0 = some r ∧
                  lookupN G2.tuuid r = some tx0.event_id := by
              refine ⟨hHold_someid t0 hh, id, ?_, ?_⟩
              · exact hlastH t0 hh
              · exact hutid
            rw [if_pos hcondT]
            exact hcnt
          · rw [hh] at hcnt
            rw [if_neg (fun h3 => hq (Option.some_inj.mp h3))] at hcnt
            have h2 : holderOf G2 t0 = some q := hHold_some t0 q hq hh
            rw [if_neg (by rintro ⟨h3, _⟩; rw [h2] at h3; cases h3)]
            exact hcnt
  · intro p pt hp s hs
    replace hp : lookupN (eraseN G.st.nodes id) p = some pt := hp
    have hpne : p ≠ id := by
      intro h
      rw [h, lookupN_eraseN_self] at hp
      cases hp
    rw [lookupN_eraseN_ne _ (fun h => hpne h.symm)] at hp
    obtain ⟨t', h1, h2, h3⟩ := hI.buf_owned p pt hp s hs
    exact ⟨t', h1, List.mem_append_left _ h2, h3⟩
  · intro tx htx s hs
    replace htx : tx ∈ G.st.sent ++ [tx0] := htx
    rcases List.mem_append.mp htx with htxo | htxn
    · obtain ⟨t', h1, h2, h3⟩ := hI.tx_owned tx htxo s hs
      exact ⟨t', h1, List.mem_append_left _ h2, h3⟩
    · rw [List.mem_singleton.mp htxn] at hs
      obtain ⟨t', h1, h2, h3⟩ := hI.buf_owned id trace hl s hs
      exact ⟨t', h1, List.mem_append_left _ h2, h3⟩
  · intro r hr u hu
    have hr' : isRoot G r := hr
    have hu' : lookupN G.tuuid r = some u := hu
    show ((G.st.sent ++ [tx0]).filter (fun tx => decide (tx.event_id = u))).length = _
    rw [List.filter_append]
    by_cases hrid : r = id
    · rw [hrid] at hu' ⊢
      have huv : u = trace.trace_id := by
        rw [hutid] at hu'
        injection hu' with h
        rw [h]
      have hzero := hI.sent_count id hidroot u hu'
      rw [if_neg hidncl] at hzero
      have hfil : (G.st.sent.filter (fun tx => decide (tx.event_id = u))) = [] :=
        List.length_eq_zero.mp hzero
      have hfil2 : ([tx0].filter (fun tx => decide (tx.event_id = u))) = [tx0] := by
        have hp : tx0.event_id = u := by rw [huv]
        rw [List.filter_cons, List.filter_nil, if_pos]
        rw [hp]
        exact decide_eq_true_eq.mpr rfl
      rw [hfil, hfil2]
      rw [if_pos (List.mem_append_right _ (by simp))]
      rfl
    · have hne : tx0.event_id ≠ u := by
        intro hEq
        have hu2 : lookupN G.tuuid r = some trace.trace_id := by
          rw [← hEq] at hu'
          exact hu'
        exact hrid (hI.tuuid_root_inj r id trace.trace_id hr' hidroot hu2 hutid)
      have hfil2 : ([tx0].filter (fun tx => decide (tx.event_id = u))) = [] := by
        rw [List.filter_cons, List.filter_nil, if_neg]
        exact fun h => hne (decide_eq_true_eq.mp h)
      rw [hfil2, List.append_nil]
      rw [if_congr (hclmem r hrid) rfl rfl]
      exact hI.sent_count r hr' u hu'
  · intro tx htx
    replace htx : tx ∈ G.st.sent ++ [tx0] := htx
    rcases List.mem_append.mp htx with htxo | htxn
    · obtain ⟨r, h1, h2, h3⟩ := hI.sent_owned tx htxo
      exact ⟨r, h1, List.mem_append_left _ h2, h3⟩
    · rw [List.mem_singleton.mp htxn]
      exact ⟨id, hidroot, List.mem_append_right _ (by simp), hutid⟩
  · intro p pt hp
    replace hp : lookupN (eraseN G.st.nodes id) p = some pt := hp
    have hpne : p ≠ id := by
      intro h
      rw [h, lookupN_eraseN_self] at hp
      cases hp
    rw [lookupN_eraseN_ne _ (fun h => hpne h.symm)] at hp
    exact hordt pt.spans (fun s hs => hI.buf_owned p pt hp s hs) (hI.ord_node p pt hp)
  · intro tx htx
    replace htx : tx ∈ G.st.sent ++ [tx0] := htx
    rcases List.mem_append.mp htx with htxo | htxn
    · exact hordt tx.spans (fun s hs => hI.tx_owned tx htxo s hs) (hI.ord_tx tx htxo)
    · rw [List.mem_singleton.mp htxn]
      exact hordt trace.spans (fun s hs => hI.buf_owned id trace hl s hs)
        (hI.ord_node id trace hl)

/-- Closing a tracked span whose chain still holds a live ancestor node:
the closing span's accumulated children and then its own summary are
appended to that ancestor's buffer, and nothing is sent.  The invariant
is preserved. -/
theorem spanInv_close_attach (G : GState) (id now : Nat) (trace : Trace) (sd : PSpan)
    (p : Nat) (pt : Trace) (pre rest : List Nat)
    (hidcr : id ∈ G.created) (hidncl : id ∉ G.closedL)
    (hdesc : ∀ s ∈ G.created, s ∉ G.closedL → s ≠ id → id ∉ chainOf G s)
    (hl : lookupN G.st.nodes id = some trace)
    (hsid : sd.span_id = trace.span_id)
    (hsplit : chainOf G id = pre ++ p :: rest)
    (hpre : ∀ q ∈ pre, lookupN (eraseN G.st.nodes id) q = none)
    (hp : lookupN (eraseN G.st.nodes id) p = some pt)
    (hI : SpanInv G) :
    SpanInv
      { G with
        st :=
          { G.st with
            nodes := insertN (eraseN G.st.nodes id) p
              { pt with spans := pt.spans ++ trace.spans ++
                  [{ sd with parent_span_id := some pt.span_id }] } }
        closedL := G.closedL ++ [id]
        clock := now } := by
  set sd2 : PSpan := { sd with parent_span_id := some pt.span_id } with hsd2
  set pt2 : Trace := { pt with spans := pt.spans ++ trace.spans ++ [sd2] } with hpt2
  set G2 : GState :=
    { G with
      st := { G.st with nodes := insertN (eraseN G.st.nodes id) p pt2 }
      closedL := G.closedL ++ [id]
      clock := now } with hG2
  have hidtr : id ∈ G.tracked := ((hI.node_iff id).mp (by rw [hl]; rfl)).1
  have husid : lookupN G.suuid id = some trace.span_id := (hI.node_uuid id trace hl).1
  have hutid : lookupN G.tuuid id = some trace.trace_id := (hI.node_uuid id trace hl).2
  have hChainOpen := hI.open_anc id hidcr hidncl
  have hpch : p ∈ chainOf G id := by
    rw [hsplit]
    exact List.mem_append_right _ (List.mem_cons_self _ _)
  have hpne : p ≠ id := fun h => hI.chain_self id (h ▸ hpch)
  have hpG : lookupN G.st.nodes p = some pt := by
    have h2 := hp
    rwa [lookupN_eraseN_ne _ (fun h => hpne h.symm)] at h2
  have hptr : p ∈ G.tracked ∧ p ∉ G.closedL := (hI.node_iff p).mp (by rw [hpG]; rfl)
  have hpreG : ∀ q ∈ pre, lookupN G.st.nodes q = none := by
    intro q hq
    have hqch : q ∈ chainOf G id := by
      rw [hsplit]
      exact List.mem_append_left _ hq
    have hqne : id ≠ q := fun h => hI.chain_self id (h ▸ hqch)
    have h2 := hpre q hq
    rwa [lookupN_eraseN_ne _ hqne] at h2
  have hpreuntr : ∀ q ∈ pre, q ∉ G.tracked := by
    intro q hq htr
    have hqch : q ∈ chainOf G id := by
      rw [hsplit]
      exact List.mem_append_left _ hq
    have h2 := (hI.node_iff q).mpr ⟨htr, hChainOpen q hqch⟩
    rw [hpreG q hq] at h2
    cases h2
  have htargid : targetOf G id = some p := by
    rw [targetOf, hsplit]
    exact find?_split_eq_some pre _ p
      (fun x hx => decide_eq_false_iff_not.mpr (hpreuntr x hx))
      (decide_eq_true_eq.mpr hptr.1)
  have hidnotroot : ¬ isRoot G id := by
    rintro ⟨_, h2⟩
    rw [htargid] at h2
    cases h2
  have hlook2_id : lookupN G2.st.nodes id = none := by
    show lookupN (insertN (eraseN G.st.nodes id) p pt2) id = none
    rw [lookupN_insertN_ne _ _ hpne, lookupN_eraseN_self]
  have hlook2_p : lookupN G2.st.nodes p = some pt2 := lookupN_insertN_self _ _ _
  have hlook2_ne : ∀ x, x ≠ id → x ≠ p →
      lookupN G2.st.nodes x = lookupN G.st.nodes x := by
    intro x hxid hxp
    show lookupN (insertN (eraseN G.st.nodes id) p pt2) x = _
    rw [lookupN_insertN_ne _ _ (fun h => hxp h.symm),
      lookupN_eraseN_ne _ (fun h => hxid h.symm)]
  have h_prid : ((lookupN G.st.nodes id).isSome) = true := by rw [hl]; rfl
  have h_pr2id : ((lookupN G2.st.nodes id).isSome) = false := by
    rw [hlook2_id]
    rfl
  have h_prne : ∀ x, x ≠ id →
      ((lookupN G2.st.nodes x).isSome) = ((lookupN G.st.nodes x).isSome) := by
    intro x hx
    by_cases hxp : x = p
    · rw [hxp, hlook2_p, hpG]
      rfl
    · rw [hlook2_ne x hx hxp]
  have hfind2chain : (chainOf G id).find?
      (fun x => (lookupN G2.st.nodes x).isSome) = some p := by
    rw [hsplit]
    refine find?_split_eq_some pre _ p ?_ ?_
    · intro x hx
      have hxch : x ∈ chainOf G id := by
        rw [hsplit]
        exact List.mem_append_left _ hx
      have hxne : x ≠ id := fun h => hI.chain_self id (h ▸ hxch)
      by_cases hxp : x = p
      · exfalso
        have h2 := hpre x hx
        rw [hxp, hp] at h2
        cases h2
      · rw [hlook2_ne x hxne hxp, hpreG x hx]
        rfl
    · rw [hlook2_p]
      rfl
  have hHold2_id : holderOf G2 id = some p := by
    show (chainOf G id).find? _ = some p
    exact hfind2chain
  have hHold_someid : ∀ t0, holderOf G t0 = some id → holderOf G2 t0 = some p := by
    intro t0 h
    obtain ⟨pre2, rest2, hsp, hpre2, hfind⟩ :=
      @find?_switch_id (fun x => (lookupN G.st.nodes x).isSome)
        (fun x => (lookupN G2.st.nodes x).isSome) id (chainOf G t0)
        h_pr2id h_prne h
    have hmem : id ∈ chainOf G t0 := by
      rw [hsp]
      exact List.mem_append_right _ (List.mem_cons_self _ _)
    obtain ⟨pre3, hsp3, _, _⟩ := inv_chain_split hI t0 id hmem
    obtain ⟨_, hre⟩ := split_unique id pre2 rest2 pre3 (chainOf G id)
      (by rw [← hsp]; exact inv_chain_nodup hI t0) (by rw [← hsp, ← hsp3])
    show (chainOf G t0).find? _ = some p
    rw [hfind, hre]
    exact hfind2chain
  have hHold_some : ∀ t0 q, q ≠ id → holderOf G t0 = some q → holderOf G2 t0 = some q :=
    fun t0 q hq h => find?_switch_some h_prne h_prid h hq
  have hHold_none : ∀ t0, holderOf G t0 = none → holderOf G2 t0 = none :=
    fun t0 h => find?_switch_none h_prne h_prid h
  have hholder_from_buf : ∀ q qt, lookupN G.st.nodes q = some qt →
      ∀ s ∈ qt.spans, ∀ t0, t0 ∈ G.tracked → t0 ∈ G.closedL →
      lookupN G.suuid t0 = some s.span_id → holderOf G t0 = some q := by
    intro q qt hq s hs t0 htr hcl hsu
    have hcnt := hI.mem_node t0 htr hcl s.span_id hsu q qt hq
    by_cases hh : holderOf G t0 = some q
    · exact hh
    · rw [if_neg hh] at hcnt
      have h2 : s.span_id ≠ s.span_id := (countU_eq_zero_iff _ _).mp hcnt s hs
      exact absurd rfl h2
  have howned_pt := hI.buf_owned p pt hpG
  have howned_tr := hI.buf_owned id trace hl
  have habsent := spanInv_unclosed_absent hI id trace.span_id husid hidncl
  have hclmem : ∀ t, t ≠ id → (t ∈ G.closedL ++ [id] ↔ t ∈ G.closedL) := by
    intro t ht
    simp [ht]
  have hordt : ∀ (l : List PSpan),
      (∀ s ∈ l, ∃ t', t' ∈ G.tracked ∧ t' ∈ G.closedL ∧
        lookupN G.suuid t' = some s.span_id) →
      l.Pairwise (ordRel G) → l.Pairwise (ordRel G2) := by
    intro l howned hpw
    refine pairwise_imp_mem ?_ hpw
    intro a b ha hb h ta tb q hta htb hga hgb
    have hta' : lookupN G.suuid ta = some a.span_id := hta
    have htb' : lookupN G.suuid tb = some b.span_id := htb
    obtain ⟨ta', _, hcla, hsua⟩ := howned a ha
    obtain ⟨tb', _, hclb, hsub⟩ := howned b hb
    have hta2 : ta = ta' := hI.suuid_inj ta ta' a.span_id hta' hsua
    have htb2 : tb = tb' := hI.suuid_inj tb tb' b.span_id htb' hsub
    show (G.closedL ++ [id]).indexOf ta < (G.closedL ++ [id]).indexOf tb
    rw [List.indexOf_append_of_mem (hta2 ▸ hcla),
      List.indexOf_append_of_mem (htb2 ▸ hclb)]
    exact h ta tb q hta' htb' hga hgb
  refine ⟨hI.created_chain, hI.chain_created, hI.chain_self, hI.chain_head, ?_,
    hI.tracked_created, ?_, ?_, ?_, hI.suuid_dom, hI.tuuid_dom, ?_,
    hI.suuid_bound, hI.tuuid_bound, hI.suuid_inj, hI.tuuid_root_inj,
    hI.tuuid_parent, ?_, ?_, ?_, ?_, ?_, ?_, ?_, ?_⟩
  · intro t ht
    rcases List.mem_append.mp ht with ht | ht
    · exact hI.closed_created t ht
    · rw [List.mem_singleton.mp ht]
      exact hidcr
  · refine List.Nodup.append hI.closed_nodup (List.nodup_singleton id) ?_
    intro a ha hb
    rw [List.mem_singleton.mp hb] at ha
    exact hidncl ha
  · intro s hs hso q hq
    have hso1 : s ∉ G.closedL := fun h => hso (List.mem_append_left _ h)
    have hsne : s ≠ id := fun h => hso (h ▸ List.mem_append_right _ (by simp))
    have hqold : q ∉ G.closedL := hI.open_anc s hs hso1 q hq
    have hqne : q ≠ id := by
      intro hEq
      exact hdesc s hs hso1 hsne (hEq ▸ hq)
    rw [hclmem q hqne]
    exact hqold
  · intro t
    by_cases ht : t = id
    · rw [ht]
      show (lookupN (insertN (eraseN G.st.nodes id) p pt2) id).isSome = true ↔ _
      rw [lookupN_insertN_ne _ _ hpne, lookupN_eraseN_self]
      constructor
      · intro h
        cases h
      · rintro ⟨_, h2⟩
        exact absurd (List.mem_append_right _ (by simp)) h2
    · by_cases htp : t = p
      · rw [htp]
        show (lookupN (insertN (eraseN G.st.nodes id) p pt2) p).isSome = true ↔ _
        rw [lookupN_insertN_self]
        constructor
        · intro _
          refine ⟨hptr.1, ?_⟩
          intro hm
          rcases List.mem_append.mp hm with hm | hm
          · exact hptr.2 hm
          · exact hpne (List.mem_singleton.mp hm)
        · intro _
          rfl
      · show (lookupN (insertN (eraseN G.st.nodes id) p pt2) t).isSome = true ↔ _
        rw [lookupN_insertN_ne _ _ (fun h => htp h.symm),
          lookupN_eraseN_ne _ (fun h => ht h.symm), hI.node_iff t]
        constructor
        · rintro ⟨h1, h2⟩
          exact ⟨h1, fun h => h2 ((hclmem t ht).mp h)⟩
        · rintro ⟨h1, h2⟩
          exact ⟨h1, fun h => h2 ((hclmem t ht).mpr h)⟩
  · intro t tr0 hlk
    replace hlk : lookupN (insertN (eraseN G.st.nodes id) p pt2) t = some tr0 := hlk
    by_cases htp : t = p
    · rw [htp] at hlk ⊢
      rw [lookupN_insertN_self] at hlk
      injection hlk with hlk
      rw [← hlk]
      exact hI.node_uuid p pt hpG
    · by_cases ht : t = id
      · rw [ht, lookupN_insertN_ne _ _ hpne, lookupN_eraseN_self] at hlk
        cases hlk
      · rw [lookupN_insertN_ne _ _ (fun h => htp h.symm),
          lookupN_eraseN_ne _ (fun h => ht h.symm)] at hlk
        exact hI.node_uuid t tr0 hlk
  · intro t0 htr hcl u hu p' pt'' hp''
    replace hp'' : lookupN (insertN (eraseN G.st.nodes id) p pt2) p' = some pt'' := hp''
    by_cases hp'p : p' = p
    · rw [hp'p] at hp'' ⊢
      rw [lookupN_insertN_self] at hp''
      injection hp'' with hp''
      rw [← hp'']
      show countU u (pt.spans ++ trace.spans ++ [sd2]) = _
      rw [countU_append, countU_append, countU_singleton]
      by_cases ht0 : t0 = id
      · rw [ht0] at hu ⊢
        have hu' : lookupN G.suuid id = some u := hu
        have huv : u = trace.span_id := by
          rw [husid] at hu'
          injection hu' with h
          rw [h]
        have h1 : countU u pt.spans = 0 := by
          rw [huv]
          exact habsent.1 p pt hpG
        have h2 : countU u trace.spans = 0 := by
          rw [huv]
          exact habsent.1 id trace hl
        have h3 : (if sd2.span_id = u then 1 else 0) = 1 := by
          rw [if_pos]
          show sd.span_id = u
          rw [hsid, huv]
        rw [h1, h2, h3, if_pos hHold2_id]
      · have hcl' : t0 ∈ G.closedL := (hclmem t0 ht0).mp hcl
        have hu' : lookupN G.suuid t0 = some u := hu
        have hune : u ≠ trace.span_id := by
          intro hEq
          rw [hEq] at hu'
          exact ht0 (hI.suuid_inj t0 id trace.span_id hu' husid)
        have h3 : (if sd2.span_id = u then 1 else 0) = 0 := by
          rw [if_neg]
          show ¬ sd.span_id = u
          rw [hsid]
          exact fun h => hune h.symm
        have hc1 := hI.mem_node t0 htr hcl' u hu' p pt hpG
        have hc2 := hI.mem_node t0 htr hcl' u hu' id trace hl
        rw [h3, hc1, hc2]
        cases hh : holderOf G t0 with
        | none =>
          rw [if_neg (by intro h; cases h), if_neg (by intro h; cases h),
            hHold_none t0 hh, if_neg (by intro h; cases h)]
        | some q =>
          by_cases hqid : q = id
          · rw [hqid] at hh
            rw [hqid]
            rw [if_neg (by intro h; injection h with h; exact hpne h.symm),
              if_pos rfl, hHold_someid t0 hh, if_pos rfl]
          · by_cases hqp : q = p
            · rw [hqp] at hh
              rw [hqp]
              rw [if_pos rfl, if_neg (by intro h; injection h with h; exact hpne h),
                hHold_some t0 p hpne hh, if_pos rfl]
            · rw [if_neg (by intro h; injection h with h; exact hqp h),
                if_neg (by intro h; injection h with h; exact hqid h),
                hHold_some t0 q hqid hh,
                if_neg (by intro h; injection h with h; exact hqp h)]
    · have hp'ne : p' ≠ id := by
        intro h
        rw [h, lookupN_insertN_ne _ _ hpne, lookupN_eraseN_self] at hp''
        cases hp''
      rw [lookupN_insertN_ne _ _ (fun h => hp'p h.symm),
        lookupN_eraseN_ne _ (fun h => hp'ne h.symm)] at hp''
      by_cases ht0 : t0 = id
      · rw [ht0] at hu ⊢
        have hu' : lookupN G.suuid id = some u := hu
        have huv : u = trace.span_id := by
          rw [husid] at hu'
          injection hu' with h
          rw [h]
        rw [huv, if_neg (by rw [hHold2_id]; intro h; injection h with h; exact hp'p h.symm)]
        exact habsent.1 p' pt'' hp''
      · have hcl' : t0 ∈ G.closedL := (hclmem t0 ht0).mp hcl
        have hu' : lookupN G.suuid t0 = some u := hu
        have hcnt := hI.mem_node t0 htr hcl' u hu' p' pt'' hp''
        cases hh : holderOf G t0 with
        | none =>
          rw [hh] at hcnt
          rw [if_neg (by intro h; cases h)] at hcnt
          rw [hHold_none t0 hh, if_neg (by intro h; cases h)]
          exact hcnt
        | some q =>
          rw [hh] at hcnt
          by_cases hqid : q = id
          · rw [hqid] at hh hcnt
            rw [if_neg (by intro h; injection h with h; exact hp'ne h.symm)] at hcnt
            rw [hHold_someid t0 hh,
              if_neg (by intro h; injection h with h; exact hp'p h.symm)]
            exact hcnt
          · rw [hHold_some t0 q hqid hh]
            exact hcnt
  · intro t0 htr hcl u hu tx htx
    replace htx : tx ∈ G.st.sent := htx
    by_cases ht0 : t0 = id
    · rw [ht0] at hu ⊢
      have hu' : lookupN G.suuid id = some u := hu
      have huv : u = trace.span_id := by
        rw [husid] at hu'
        injection hu' with h
        rw [h]
      have hcondF : ¬(holderOf G2 id = none ∧
          ∃ r, lastTrackedOf G2 id = some r ∧ lookupN G2.tuuid r = some tx.event_id) := by
        rintro ⟨h3, _⟩
        rw [hHold2_id] at h3
        cases h3
      rw [if_neg hcondF, huv]
      exact habsent.2 tx htx
    · have hcl' : t0 ∈ G.closedL := (hclmem t0 ht0).mp hcl
      have hu' : lookupN G.suuid t0 = some u := hu
      have hmt := hI.mem_tx t0 htr hcl' u hu' tx htx
      cases hh : holderOf G t0 with
      | none =>
        rw [hh] at hmt
        have h2 : holderOf G2 t0 = none := hHold_none t0 hh
        have hiff : (holderOf G2 t0 = none ∧
            ∃ r, lastTrackedOf G2 t0 = some r ∧ lookupN G2.tuuid r = some tx.event_id) ↔
            ((none : Option Nat) = none ∧
            ∃ r, lastTrackedOf G t0 = some r ∧ lookupN G.tuuid r = some tx.event_id) := by
          rw [h2]
          exact Iff.rfl
        rw [if_congr hiff rfl rfl]
        exact hmt
      | some q =>
        rw [hh] at hmt
        rw [if_neg (by rintro ⟨h3, _⟩; cases h3)] at hmt
        by_cases hqid : q = id
        · rw [hqid] at hh
          rw [if_neg (by rintro ⟨h3, _⟩; rw [hHold_someid t0 hh] at h3; cases h3)]
          exact hmt
        · rw [if_neg (by rintro ⟨h3, _⟩; rw [hHold_some t0 q hqid hh] at h3; cases h3)]
          exact hmt
  · intro p' pt'' hp'' s hs
    replace hp'' : lookupN (insertN (eraseN G.st.nodes id) p pt2) p' = some pt'' := hp''
    by_cases hp'p : p' = p
    · rw [hp'p, lookupN_insertN_self] at hp''
      injection hp'' with hp''
      rw [← hp''] at hs
      have hs' : s ∈ pt.spans ++ trace.spans ++ [sd2] := hs
      rcases List.mem_append.mp hs' with hs2 | hs2
      · rcases List.mem_append.mp hs2 with hs3 | hs3
        · obtain ⟨t', h1, h2, h3⟩ := howned_pt s hs3
          exact ⟨t', h1, List.mem_append_left _ h2, h3⟩
        · obtain ⟨t', h1, h2, h3⟩ := howned_tr s hs3
          exact ⟨t', h1, List.mem_append_left _ h2, h3⟩
      · rw [List.mem_singleton.mp hs2]
        refine ⟨id, hidtr, List.mem_append_right _ (by simp), ?_⟩
        show lookupN G.suuid id = some sd2.span_id
        show lookupN G.suuid id = some sd.span_id
        rw [hsid]
        exact husid
    · have hp'ne : p' ≠ id := by
        intro h
        rw [h, lookupN_insertN_ne _ _ hpne, lookupN_eraseN_self] at hp''
        cases hp''
      rw [lookupN_insertN_ne _ _ (fun h => hp'p h.symm),
        lookupN_eraseN_ne _ (fun h => hp'ne h.symm)] at hp''
      obtain ⟨t', h1, h2, h3⟩ := hI.buf_owned p' pt'' hp'' s hs
      exact ⟨t', h1, List.mem_append_left _ h2, h3⟩
  · intro tx htx s hs
    obtain ⟨t', h1, h2, h3⟩ := hI.tx_owned tx htx s hs
    exact ⟨t', h1, List.mem_append_left _ h2, h3⟩
  · intro r hr u hu
    have hr' : isRoot G r := hr
    have hu' : lookupN G.tuuid r = some u := hu
    have hrne : r ≠ id := fun h => hidnotroot (h ▸ hr')
    show (G.st.sent.filter (fun tx => decide (tx.event_id = u))).length =
      if r ∈ G.closedL ++ [id] then 1 else 0
    rw [if_congr (hclmem r hrne) rfl rfl]
    exact hI.sent_count r hr' u hu'
  · intro tx htx
    obtain ⟨r, h1, h2, h3⟩ := hI.sent_owned tx htx
    exact ⟨r, h1, List.mem_append_left _ h2, h3⟩
  · intro p' pt'' hp''
    replace hp'' : lookupN (insertN (eraseN G.st.nodes id) p pt2) p' = some pt'' := hp''
    by_cases hp'p : p' = p
    · rw [hp'p, lookupN_insertN_self] at hp''
      injection hp'' with hp''
      rw [← hp'']
      show (pt.spans ++ trace.spans ++ [sd2]).Pairwise (ordRel G2)
      refine List.pairwise_append.mpr ⟨List.pairwise_append.mpr ⟨?_, ?_, ?_⟩, ?_, ?_⟩
      · exact hordt pt.spans howned_pt (hI.ord_node p pt hpG)
      · exact hordt trace.spans howned_tr (hI.ord_node id trace hl)
      · intro a ha b hb
        intro ta tb q hta htb hga hgb
        have hta' : lookupN G.suuid ta = some a.span_id := hta
        have htb' : lookupN G.suuid tb = some b.span_id := htb
        have hga' : targetOf G ta = some q := hga
        have hgb' : targetOf G tb = some q := hgb
        obtain ⟨ta', htra, hcla, hsua⟩ := howned_pt a ha
        obtain ⟨tb', htrb, hclb, hsub⟩ := howned_tr b hb
        have hta2 : ta = ta' := hI.suuid_inj ta ta' a.span_id hta' hsua
        have htb2 : tb = tb' := hI.suuid_inj tb tb' b.span_id htb' hsub
        have hha : holderOf G ta = some p := by
          rw [hta2]
          exact hholder_from_buf p pt hpG a ha ta' htra hcla hsua
        have hhb : holderOf G tb = some id := by
          rw [htb2]
          exact hholder_from_buf id trace hl b hb tb' htrb hclb hsub
        have hdet := spanInv_holder_det hI ta tb q hga' hgb'
        rw [hha, hhb] at hdet
        injection hdet with hdet
        exact absurd hdet hpne
      · simp
      · intro a ha b hb
        rw [List.mem_singleton.mp hb]
        intro ta tb q hta htb hga hgb
        have h0 : lookupN G.suuid tb = some sd.span_id := htb
        rw [hsid] at h0
        have htbid : tb = id := hI.suuid_inj tb id trace.span_id h0 husid
        have hta0 : lookupN G.suuid ta = some a.span_id := hta
        have hown : ∃ t', t' ∈ G.tracked ∧ t' ∈ G.closedL ∧
            lookupN G.suuid t' = some a.span_id := by
          rcases List.mem_append.mp ha with h | h
          · exact howned_pt a h
          · exact howned_tr a h
        obtain ⟨ta', _, hcla, hsua⟩ := hown
        have hta2 : ta = ta' := hI.suuid_inj ta ta' a.span_id hta0 hsua
        show (G.closedL ++ [id]).indexOf ta < (G.closedL ++ [id]).indexOf tb
        rw [hta2, htbid, List.indexOf_append_of_mem hcla]
        have h2 : (G.closedL ++ [id]).indexOf id = G.closedL.length := by
          rw [List.indexOf_append_of_not_mem hidncl, List.indexOf_cons_self]
          rfl
        rw [h2]
        exact List.indexOf_lt_length.mpr hcla
    · have hp'ne : p' ≠ id := by
        intro h
        rw [h, lookupN_insertN_ne _ _ hpne, lookupN_eraseN_self] at hp''
        cases hp''
      rw [lookupN_insertN_ne _ _ (fun h => hp'p h.symm),
        lookupN_eraseN_ne _ (fun h => hp'ne h.symm)] at hp''
      exact hordt pt''.spans (fun s hs => hI.buf_owned p' pt'' hp'' s hs)
        (hI.ord_node p' pt'' hp'')
  · intro tx htx
    exact hordt tx.spans (fun s hs => hI.tx_owned tx htx s hs) (hI.ord_tx tx htx)

/-- Shape of a `create` step the span filter rejects. -/
theorem gstep_create_untracked_eq (cfg : FieldVisitorConfig) (G : GState) (id : Nat)
    (parent : Option Nat) (nm : String) (attrs : List (String × FieldValue))
    (now wall : Nat) (hlid : lookupN G.st.nodes id = none) :
    gstep cfg G (.create id parent false nm attrs now wall) =
      { G with
        st :=
          { G.st with
            ancestors := insertN G.st.ancestors id
              (match parent with | none => [] | some q => q :: chainOf G q)
            names := insertN G.st.names id nm }
        created := G.created ++ [id]
        clock := now } := by
  simp [gstep, hlid]

/-- Shape of a `create` step the span filter admits. -/
theorem gstep_create_tracked_eq (cfg : FieldVisitorConfig) (G : GState) (id : Nat)
    (parent : Option Nat) (nm : String) (attrs : List (String × FieldValue))
    (now wall : Nat) (hlid : lookupN G.st.nodes id = none) :
    gstep cfg G (.create id parent true nm attrs now wall) =
      { G with
        st :=
          { G.st with
            nodes := insertN G.st.nodes id
              { (Trace.new G.st parent now wall).1 with
                  visitor := runVisitor cfg attrs {} }
            ancestors := insertN G.st.ancestors id
              (match parent with | none => [] | some q => q :: chainOf G q)
            names := insertN G.st.names id nm
            nextUuid := (Trace.new G.st parent now wall).2 }
        created := G.created ++ [id]
        tracked := G.tracked ++ [id]
        suuid := insertN G.suuid id (Trace.new G.st parent now wall).1.span_id
        tuuid := insertN G.tuuid id (Trace.new G.st parent now wall).1.trace_id
        ctime := insertN G.ctime id now
        clock := now } := by
  simp [gstep, spanLayer_new_span, hlid, lookupN_insertN_self]

/-- Shape of a `close` step on a span without a node. -/
theorem gstep_close_none_eq (cfg : FieldVisitorConfig) (G : GState) (id now : Nat)
    (hl : lookupN G.st.nodes id = none) :
    gstep cfg G (.close id now) =
      { G with closedL := G.closedL ++ [id], clock := now } := by
  simp [gstep, spanLayer_on_close, hl]

/-- Shape of a `close` step that attaches to a live ancestor. -/
theorem gstep_close_attach_eq (cfg : FieldVisitorConfig) (G : GState) (id now : Nat)
    (trace : Trace) (nodes2 : List (Nat × Trace))
    (hl : lookupN G.st.nodes id = some trace)
    (hatt : attachToAncestor (eraseN G.st.nodes id) (chainOf G id) trace.spans
      (mkSpanData trace ((lookupN G.st.names id).getD "") now) = some nodes2) :
    gstep cfg G (.close id now) =
      { G with
        st := { G.st with nodes := nodes2 }
        closedL := G.closedL ++ [id]
        clock := now } := by
  simp only [chainOf] at hatt
  simp [gstep, spanLayer_on_close, hl, hatt]

/-- Shape of a `close` step that emits a root transaction. -/
theorem gstep_close_emit_eq (cfg : FieldVisitorConfig) (G : GState) (id now : Nat)
    (trace : Trace)
    (hl : lookupN G.st.nodes id = some trace)
    (hatt : attachToAncestor (eraseN G.st.nodes id) (chainOf G id) trace.spans
      (mkSpanData trace ((lookupN G.st.names id).getD "") now) = none) :
    gstep cfg G (.close id now) =
      { G with
        st :=
          { G.st with
            nodes := eraseN G.st.nodes id
            sent := G.st.sent ++
              [{ event_id := trace.trace_id,
                 name := some ((lookupN G.st.names id).getD ""),
                 start_timestamp := trace.first, timestamp := some trace.last_sys,
                 spans := trace.spans }] }
        closedL := G.closedL ++ [id]
        clock := now } := by
  simp only [chainOf] at hatt
  simp [gstep, spanLayer_on_close, hl, hatt]

/-- One valid machine step preserves the global invariant. -/
theorem inv_gstep (cfg : FieldVisitorConfig) (G : GState) (op : Op)
    (hv : validOp G op = true) (hI : SpanInv G) : SpanInv (gstep cfg G op) := by
  cases op with
  | enter id now =>
    cases hl : lookupN G.st.nodes id with
    | none =>
      rw [gstep_enter_none cfg G id now hl]
      exact spanInv_of_eq _ G rfl rfl rfl rfl rfl rfl rfl rfl rfl hI
    | some t =>
      rw [gstep_enter_some cfg G id now t hl]
      exact spanInv_touch_node G id t _ now hl rfl rfl rfl hI
  | exit id now wall =>
    cases hl : lookupN G.st.nodes id with
    | none =>
      rw [gstep_exit_none cfg G id now wall hl]
      exact spanInv_of_eq _ G rfl rfl rfl rfl rfl rfl rfl rfl rfl hI
    | some t =>
      rw [gstep_exit_some cfg G id now wall t hl]
      exact spanInv_touch_node G id t _ now hl rfl rfl rfl hI
  | close id now =>
    simp only [validOp, Bool.and_eq_true, decide_eq_true_eq] at hv
    obtain ⟨⟨⟨hidcr, hidncl⟩, hall⟩, hclk⟩ := hv
    have hdesc : ∀ s ∈ G.created, s ∉ G.closedL → s ≠ id → id ∉ chainOf G s := by
      intro s hs hso hsne hch
      have h2 := (List.all_eq_true.mp hall) s hs
      simp only [Bool.or_eq_true, decide_eq_true_eq] at h2
      rcases h2 with (h2 | h2) | h2
      · exact hso h2
      · exact h2 hch
      · exact hsne h2
    cases hl : lookupN G.st.nodes id with
    | none =>
      rw [gstep_close_none_eq cfg G id now hl]
      exact spanInv_close_untracked G id now hidcr hidncl hdesc hl hI
    | some trace =>
      rcases attachToAncestor_split (eraseN G.st.nodes id) (chainOf G id) trace.spans
          (mkSpanData trace ((lookupN G.st.names id).getD "") now) with
        ⟨hnone, hall2⟩ | ⟨pre, p, pt, rest, hsplit, hpre, hp, hsome⟩
      · rw [gstep_close_emit_eq cfg G id now trace hl hnone]
        exact spanInv_close_emit G id now trace ((lookupN G.st.names id).getD "")
          hidcr hidncl hdesc hl hall2 hI
      · rw [gstep_close_attach_eq cfg G id now trace _ hl hsome]
        exact spanInv_close_attach G id now trace
          (mkSpanData trace ((lookupN G.st.names id).getD "") now) p pt pre rest
          hidcr hidncl hdesc hl rfl hsplit hpre hp hI
  | create id parent tracked nm attrs now wall =>
    cases parent with
    | none =>
      simp only [validOp, Bool.and_eq_true, decide_eq_true_eq] at hv
      obtain ⟨⟨hfresh, _⟩, hclk⟩ := hv
      have hlid : lookupN G.st.nodes id = none := by
        cases hlk : lookupN G.st.nodes id with
        | none => rfl
        | some t =>
          have h2 := ((hI.node_iff id).mp (by rw [hlk]; rfl)).1
          exact absurd (hI.tracked_created id h2) hfresh
      have hC : ([] : List Nat) = [] ∨ ∃ q, q ∈ G.created ∧ q ∉ G.closedL ∧
          ([] : List Nat) = q :: chainOf G q := Or.inl rfl
      cases tracked with
      | false =>
        rw [gstep_create_untracked_eq cfg G id none nm attrs now wall hlid]
        exact spanInv_create_untracked G id [] nm now hfresh hC hI
      | true =>
        rw [gstep_create_tracked_eq cfg G id none nm attrs now wall hlid]
        refine spanInv_create_tracked G id []
          nm _ _ now hfresh hC rfl (Nat.le_succ _) ?_ ?_ ?_ ?_ ?_ hI
        · show G.st.nextUuid + 1 < G.st.nextUuid + 2
          omega
        · show G.st.nextUuid < G.st.nextUuid + 2
          omega
        · show G.st.nextUuid ≤ G.st.nextUuid + 2
          omega
        · intro q hq
          cases hq
        · intro _
          rfl
    | some pp =>
      simp only [validOp, Bool.and_eq_true, decide_eq_true_eq] at hv
      obtain ⟨⟨hfresh, hpcr, hpncl⟩, hclk⟩ := hv
      have hlid : lookupN G.st.nodes id = none := by
        cases hlk : lookupN G.st.nodes id with
        | none => rfl
        | some t =>
          have h2 := ((hI.node_iff id).mp (by rw [hlk]; rfl)).1
          exact absurd (hI.tracked_created id h2) hfresh
      have hC : (pp :: chainOf G pp) = [] ∨ ∃ q, q ∈ G.created ∧ q ∉ G.closedL ∧
          pp :: chainOf G pp = q :: chainOf G q := Or.inr ⟨pp, hpcr, hpncl, rfl⟩
      cases tracked with
      | false =>
        rw [gstep_create_untracked_eq cfg G id (some pp) nm attrs now wall hlid]
        exact spanInv_create_untracked G id (pp :: chainOf G pp) nm now hfresh hC hI
      | true =>
        rw [gstep_create_tracked_eq cfg G id (some pp) nm attrs now wall hlid]
        cases hpp : lookupN G.st.nodes pp with
        | some ppt =>
          have hTnew : Trace.new G.st (some pp) now wall =
              ({ span_id := G.st.nextUuid, trace_id := ppt.trace_id, last := now,
                 first := wall, last_sys := wall }, G.st.nextUuid + 1) := by
            simp [Trace.new, hpp]
          rw [hTnew]
          refine spanInv_create_tracked G id (pp :: chainOf G pp)
            nm _ _ now hfresh hC rfl ?_ ?_ ?_ ?_ ?_ ?_ hI
          · exact Nat.le_refl _
          · show G.st.nextUuid < G.st.nextUuid + 1
            omega
          · show ppt.trace_id < G.st.nextUuid + 1
            have hb := hI.tuuid_bound pp ppt.trace_id (hI.node_uuid pp ppt hpp).2
            omega
          · show G.st.nextUuid ≤ G.st.nextUuid + 1
            omega
          · intro q hq hqtr
            rw [List.head?_cons] at hq
            injection hq with hq
            rw [← hq]
            exact ⟨ppt, hpp, rfl⟩
          · intro hno
            exact absurd (((hI.node_iff pp).mp (by rw [hpp]; rfl)).1)
              (hno pp (by rw [List.head?_cons]))
        | none =>
          have hTnew : Trace.new G.st (some pp) now wall =
              ({ span_id := G.st.nextUuid + 1, trace_id := G.st.nextUuid, last := now,
                 first := wall, last_sys := wall }, G.st.nextUuid + 2) := by
            simp [Trace.new, hpp]
          rw [hTnew]
          refine spanInv_create_tracked G id (pp :: chainOf G pp)
            nm _ _ now hfresh hC rfl (Nat.le_succ _) ?_ ?_ ?_ ?_ ?_ hI
          · show G.st.nextUuid + 1 < G.st.nextUuid + 2
            omega
          · show G.st.nextUuid < G.st.nextUuid + 2
            omega
          · show G.st.nextUuid ≤ G.st.nextUuid + 2
            omega
          · intro q hq hqtr
            rw [List.head?_cons] at hq
            injection hq with hq
            rw [← hq] at hqtr
            have h2 := (hI.node_iff pp).mpr ⟨hqtr, hpncl⟩
            rw [hpp] at h2
            cases h2
          · intro _
            rfl

/-- A valid run preserves the global invariant. -/
theorem inv_grun (cfg : FieldVisitorConfig) (G : GState) (ops : List Op)
    (hv : validRun cfg G ops = true) (hI : SpanInv G) : SpanInv (grun cfg G ops) := by
  induction ops generalizing G with
  | nil => exact hI
  | cons op ops ih =>
    simp only [validRun, Bool.and_eq_true] at hv
    exact ih (gstep cfg G op) hv.2 (inv_gstep cfg G op hv.1 hI)

/-- C3: sibling spans attaching to the same nearest tracked ancestor
appear in any node buffer or emitted span list in close order: whenever
summaries carrying the two siblings' span UUIDs occupy positions of such
a list, the earlier-closing sibling's summary sits strictly earlier;
every close-time append preserves this. -/
theorem children_close_order (cfg : FieldVisitorConfig) (ops : List Op)
    (hv : validRun cfg {} ops = true) (F : GState) (hF : F = grun cfg {} ops)
    (P ta tb ua ub : Nat)
    (hta : targetOf F ta = some P) (htb : targetOf F tb = some P)
    (hua : lookupN F.suuid ta = some ua) (hub : lookupN F.suuid tb = some ub)
    (horder : F.closedL.indexOf ta < F.closedL.indexOf tb)
    (l : List PSpan)
    (hl : (∃ p pt, lookupN F.st.nodes p = some pt ∧ l = pt.spans) ∨
          (∃ tx ∈ F.st.sent, l = tx.spans))
    (i j : Nat) (hi : i < l.length) (hj : j < l.length)
    (hia : (l.get ⟨i, hi⟩).span_id = ua) (hjb : (l.get ⟨j, hj⟩).span_id = ub) :
    i < j := by
  have hI : SpanInv F := by
    rw [hF]
    exact inv_grun cfg {} ops hv inv_init
  have hpw : l.Pairwise (ordRel F) := by
    rcases hl with ⟨p, pt, hp, rfl⟩ | ⟨tx, htx, rfl⟩
    · exact hI.ord_node p pt hp
    · exact hI.ord_tx tx htx
  have htane : ta ≠ tb := by
    intro hEq
    rw [hEq] at horder
    exact lt_irrefl _ horder
  rcases Nat.lt_trichotomy i j with h | h | h
  · exact h
  · exfalso
    have hgeq : l.get ⟨i, hi⟩ = l.get ⟨j, hj⟩ := by
      congr 1
      exact Fin.ext h
    have huv : ua = ub := by
      rw [← hia, hgeq, hjb]
    rw [huv] at hua
    exact htane (hI.suuid_inj ta tb ub hua hub)
  · exfalso
    have hrel := List.pairwise_iff_get.mp hpw ⟨j, hj⟩ ⟨i, hi⟩ h
    have h2 := hrel tb ta P (by rw [hjb]; exact hub) (by rw [hia]; exact hua) htb hta
    omega

/-- A run with one tracked parent and two tracked children closing in
creation order. -/
def c3Ops : List Op :=
  [.create 0 none true "P" [] 0 0, .create 1 (some 0) true "A" [] 1 1,
   .create 2 (some 0) true "B" [] 2 2, .close 1 3, .close 2 4]

/-- Final state of the C3 run. -/
def c3F : GState := grun {} {} c3Ops

/-- The parent's live node after both children closed. -/
def c3PT : Trace :=
  (lookupN c3F.st.nodes 0).getD
    { span_id := 0, trace_id := 0, last := 0, first := 0, last_sys := 0 }

/-- Witness for C3 at a concrete run: child A (span UUID 2) closed
before child B (span UUID 3), and A's summary occupies position 0 of
the parent's buffer while B's occupies position 1. -/
theorem children_close_order_witness : (0 : Nat) < 1 :=
  children_close_order {} c3Ops (by decide) c3F rfl 0 1 2 2 3
    (by decide) (by decide) (by decide) (by decide) (by decide)
    c3PT.spans (Or.inl ⟨0, c3PT, by decide, rfl⟩) 0 1 (by decide) (by decide)
    (by decide) (by decide)

/-- A valid, fully closed run in which a tracked span's immediate parent
was rejected by the span filter while its grandparent was admitted. -/
def c1Ops : List Op :=
  [.create 0 none true "R" [] 0 0, .create 1 (some 0) false "M" [] 1 1,
   .create 2 (some 1) true "C" [] 2 2, .close 2 3, .close 1 4, .close 0 5]

/-- Final state of the C1 run. -/
def c1F : GState := grun {} {} c1Ops

/-- C1 counterexample: in a valid execution where every span closes, the
root transaction's span list contains a descendant summary that does not
share the root's trace id — the descendant's immediate parent was
filtered, so creation minted it a fresh trace id, yet close-time
attachment walks the full chain to the live grandparent and the summary
still lands in the root's transaction. -/
theorem trace_completeness_counterexample :
    validRun {} {} c1Ops = true ∧
    (∀ t ∈ c1F.created, t ∈ c1F.closedL) ∧
    ∃ tx, tx ∈ c1F.st.sent ∧ ∃ s, s ∈ tx.spans ∧ s.trace_id ≠ tx.event_id := by
  decide

/-- C1 (amended): in a fully closed valid execution, each trace root's
transaction is handed to the sink exactly once — and never in a prefix
in which the root has not yet closed — and its span list carries exactly
one summary for every other tracked span whose farthest tracked ancestor
is that root, and none for the root itself; membership is governed by
the tracked-ancestor chain, not by sharing the root's trace id. -/
theorem span_close_tree_completeness (cfg : FieldVisitorConfig) (ops : List Op)
    (hv : validRun cfg {} ops = true) (F : GState) (hF : F = grun cfg {} ops)
    (hcomplete : ∀ t ∈ F.created, t ∈ F.closedL)
    (r u : Nat) (hr : isRoot F r) (hu : lookupN F.tuuid r = some u) :
    (F.st.sent.filter (fun tx => decide (tx.event_id = u))).length = 1 ∧
    (∀ tx ∈ F.st.sent, tx.event_id = u →
      (∀ t ∈ F.tracked, t ≠ r → ∀ us, lookupN F.suuid t = some us →
        countU us tx.spans = if lastTrackedOf F t = some r then 1 else 0) ∧
      (∀ ur, lookupN F.suuid r = some ur → countU ur tx.spans = 0)) ∧
    (∀ pre suf, ops = pre ++ suf → ∀ Fp, Fp = grun cfg {} pre →
      isRoot Fp r → lookupN Fp.tuuid r = some u → r ∉ Fp.closedL →
      (Fp.st.sent.filter (fun tx => decide (tx.event_id = u))).length = 0) := by
  have hI : SpanInv F := by
    rw [hF]
    exact inv_grun cfg {} ops hv inv_init
  have hnonodes : ∀ x, lookupN F.st.nodes x = none := by
    intro x
    cases hlk : lookupN F.st.nodes x with
    | none => rfl
    | some t =>
      obtain ⟨h1, h2⟩ := (hI.node_iff x).mp (by rw [hlk]; rfl)
      exact absurd (hcomplete x (hI.tracked_created x h1)) h2
  have hholder : ∀ t, holderOf F t = none := by
    intro t
    rw [holderOf, firstNode, List.find?_eq_none]
    intro x _ hpx
    rw [hnonodes x] at hpx
    cases hpx
  have hrcl : r ∈ F.closedL := hcomplete r (hI.tracked_created r hr.1)
  refine ⟨?_, ?_, ?_⟩
  · have h1 := hI.sent_count r hr u hu
    rw [if_pos hrcl] at h1
    exact h1
  · intro tx htx hev
    constructor
    · intro t ht htne us hus
      have htcl : t ∈ F.closedL := hcomplete t (hI.tracked_created t ht)
      have hmt := hI.mem_tx t ht htcl us hus tx htx
      have hiff : (holderOf F t = none ∧
          ∃ r2, lastTrackedOf F t = some r2 ∧ lookupN F.tuuid r2 = some tx.event_id) ↔
          lastTrackedOf F t = some r := by
        constructor
        · rintro ⟨_, r2, hlt, hrt⟩
          have hr2 := (spanInv_lastTracked_root hI t r2 hlt).1
          rw [hev] at hrt
          rw [hI.tuuid_root_inj r2 r u hr2 hr hrt hu] at hlt
          exact hlt
        · intro hlt
          refine ⟨hholder t, r, hlt, ?_⟩
          rw [hev]
          exact hu
      rw [if_congr hiff rfl rfl] at hmt
      exact hmt
    · intro ur hur
      have hmt := hI.mem_tx r hr.1 hrcl ur hur tx htx
      have h0 : (chainOf F r).find? (fun p => decide (p ∈ F.tracked)) = none := hr.2
      have hfil : (chainOf F r).filter (fun p => decide (p ∈ F.tracked)) = [] := by
        rw [List.filter_eq_nil_iff]
        intro x hx
        exact List.find?_eq_none.mp h0 x hx
      have hlastr : lastTrackedOf F r = none := by
        rw [lastTrackedOf, hfil]
        rfl
      rw [if_neg (by rintro ⟨_, r2, hlt, _⟩; rw [hlastr] at hlt; cases hlt)] at hmt
      exact hmt
  · intro pre suf hops Fp hFp hrp hup hrncl
    have hvp : validRun cfg {} pre = true := by
      rw [hops, validRun_append, Bool.and_eq_true] at hv
      exact hv.1
    have hIp : SpanInv Fp := by
      rw [hFp]
      exact inv_grun cfg {} pre hvp inv_init
    have h1 := hIp.sent_count r hrp u hup
    rw [if_neg hrncl] at h1
    exact h1

/-- Witness for the amended C1 at a concrete fully closed run: the root
(span 0, trace UUID 0) has exactly one transaction in the sink. -/
theorem span_close_tree_completeness_witness :
    (c1F.st.sent.filter (fun tx => decide (tx.event_id = 0))).length = 1 :=
  (span_close_tree_completeness {} c1Ops (by decide) c1F rfl (by decide) 0 0
    ⟨by decide, by decide⟩ (by decide)).1
